import Mathlib

/-!
Verification development for the vision-guided smart car system.

The development is a shallow embedding of the Python sources:

* `car_controller.py` — the command dispatcher (`SmartCarController`): the
  duplicate-plus-cooldown suppression on the two HTTP command channels, the
  emergency-stop path, and the steering decision.
* `main_with_car.py` — the FairMOT-style tracker (`FairMOTTracker.update`:
  greedy association, track creation, aging, eviction, confirmation) and the
  lock-management and track-filtering logic of `PersonTracker.process_frame`.

Modelling conventions:

* Wall-clock timestamps and fractional thresholds are rationals; every
  comparison the Python code performs on floats is mirrored exactly on `ℚ`.
* The network is external: each send receives the outcome of its HTTP POST
  as an input (`NetOutcome`), and each send result records whether a
  transmission was attempted (`transmitted`), mirroring whether control
  reached the `requests.post` call in the source.
* Appearance descriptors are opaque: `extract_features` is image processing
  on floating-point arrays, so tracks and detections carry features of an
  abstract type `α`, and the cosine similarity
  `calculate_feature_similarity` is an arbitrary function `sim : α → α → ℚ`
  supplied to `update`.  Every theorem below holds for every such `sim`, in
  particular for the one the code computes.
* Python dicts are insertion-ordered association lists: `FairMOTTracker`
  stores its tracks as `List (Nat × Track α)`; mutation of a value keeps
  its position, deletion removes the entry, a fresh key is appended.
-/

namespace SmartCar

/-- Outcome of one `requests.post` call: HTTP 200, a non-200 status code, or
a raised `RequestException`. -/
inductive NetOutcome : Type
  | ok
  | badStatus
  | netError
deriving DecidableEq, Repr

/-- Mutable state of `SmartCarController` (car_controller.py, `__init__`,
lines 21-32).  `lastGesture` and `lastTrackingAction` model the Python
attributes `last_gesture` and `last_tracking_action` (initially `None`);
`lastCommandTime` models the single `last_command_time` float that both
channels share. -/
structure CarState : Type where
  lastGesture : Option String
  lastTrackingAction : Option String
  lastCommandTime : ℚ
  minCommandInterval : ℚ
  frameCenterThreshold : Int
  trackingEnabled : Bool
deriving DecidableEq, Repr

/-- The `__init__` defaults: no command sent yet on either channel,
`last_command_time = time.time()` (the construction instant `t0`),
`min_command_interval = 0.1`, `frame_center_threshold = 50`,
`tracking_enabled = True`. -/
def initCarState (t0 : ℚ) : CarState :=
  { lastGesture := none
    lastTrackingAction := none
    lastCommandTime := t0
    minCommandInterval := 1/10
    frameCenterThreshold := 50
    trackingEnabled := true }

/-- Result of one send: the boolean return value, the controller state after
the call, and whether the HTTP POST was attempted at all. -/
structure SendResult : Type where
  ret : Bool
  state : CarState
  transmitted : Bool
deriving DecidableEq, Repr

/-- Model of `SmartCarController.send_hand_gesture` (car_controller.py,
lines 34-60).  The duplicate-plus-cooldown guard returns `True` without any
network call; otherwise the POST is attempted and, on HTTP 200, the state is
refreshed, while on a non-200 status or an exception the call returns
`False` without touching the state. -/
def send_hand_gesture (s : CarState) (gesture : String) (now : ℚ)
    (net : NetOutcome) : SendResult :=
  if s.lastGesture = some gesture ∧ now - s.lastCommandTime < s.minCommandInterval then
    ⟨true, s, false⟩
  else
    match net with
    | NetOutcome.ok =>
        ⟨true, { s with lastGesture := some gesture, lastCommandTime := now }, true⟩
    | NetOutcome.badStatus => ⟨false, s, true⟩
    | NetOutcome.netError => ⟨false, s, true⟩

/-- Model of `SmartCarController.send_tracking_command` (car_controller.py,
lines 62-96); same structure as `send_hand_gesture` but keyed on
`last_tracking_action`, sharing the same `last_command_time`. -/
def send_tracking_command (s : CarState) (action : String) (now : ℚ)
    (net : NetOutcome) : SendResult :=
  if s.lastTrackingAction = some action ∧ now - s.lastCommandTime < s.minCommandInterval then
    ⟨true, s, false⟩
  else
    match net with
    | NetOutcome.ok =>
        ⟨true, { s with lastTrackingAction := some action, lastCommandTime := now }, true⟩
    | NetOutcome.badStatus => ⟨false, s, true⟩
    | NetOutcome.netError => ⟨false, s, true⟩

/-- Result of `emergency_stop`: the combined return value, the final state,
and the transmission flags of the two underlying sends. -/
structure StopResult : Type where
  ret : Bool
  state : CarState
  gestureTransmitted : Bool
  trackingTransmitted : Bool
deriving DecidableEq, Repr

/-- Model of `SmartCarController.emergency_stop` (car_controller.py, lines
221-226): it simply calls `send_hand_gesture("none")` and then
`send_tracking_command("track_center")`, with no bypass of any kind.  `t1`
and `t2` are the two `time.time()` readings inside the two sends. -/
def emergency_stop (s : CarState) (t1 t2 : ℚ) (n1 n2 : NetOutcome) : StopResult :=
  let r1 := send_hand_gesture s "none" t1 n1
  let r2 := send_tracking_command r1.state "track_center" t2 n2
  ⟨r1.ret && r2.ret, r2.state, r1.transmitted, r2.transmitted⟩

/-- Model of `SmartCarController.calculate_tracking_adjustment`
(car_controller.py, lines 98-128).  `personCenter` is the `(x, y)` pair,
`frameDims` the `(width, height)` pair; Python `//` on the nonnegative
width agrees with integer division on `Int`. -/
def calculate_tracking_adjustment (s : CarState) (personCenter : Int × Int)
    (frameDims : Nat × Nat) : String :=
  if s.trackingEnabled = false then "track_center"
  else
    let frameCenterX : Int := (frameDims.1 : Int) / 2
    let offsetX : Int := personCenter.1 - frameCenterX
    if offsetX < -s.frameCenterThreshold then "track_left"
    else if s.frameCenterThreshold < offsetX then "track_right"
    else "track_center"

/-! ### The tracker (`main_with_car.py`, class `FairMOTTracker`) -/

/-- Bounding box `(x1, y1, x2, y2)`. -/
structure Box : Type where
  x1 : ℚ
  y1 : ℚ
  x2 : ℚ
  y2 : ℚ
deriving DecidableEq, Repr

/-- Model of `FairMOTTracker.calculate_iou` (main_with_car.py, lines
71-90): intersection over union, with 0.0 for non-overlapping boxes and a
guard against a nonpositive union. -/
def calculate_iou (b1 b2 : Box) : ℚ :=
  let x1i := max b1.x1 b2.x1
  let y1i := max b1.y1 b2.y1
  let x2i := min b1.x2 b2.x2
  let y2i := min b1.y2 b2.y2
  if x2i ≤ x1i ∨ y2i ≤ y1i then 0
  else
    let inter := (x2i - x1i) * (y2i - y1i)
    let area1 := (b1.x2 - b1.x1) * (b1.y2 - b1.y1)
    let area2 := (b2.x2 - b2.x1) * (b2.y2 - b2.y1)
    let union := area1 + area2 - inter
    if 0 < union then inter / union else 0

/-- One detection dict as consumed by `FairMOTTracker.update` and
`PersonTracker.process_frame`: bounding box, appearance features (already
attached, of abstract type `α`), integer center, and the raised-hand
information computed per detection in `process_frame` (lines 398-405).
Confidence and keypoints are omitted: they are only thresholded or drawn
upstream of the logic modelled here. -/
structure Det (α : Type) : Type where
  bbox : Box
  features : α
  center : Int × Int
  has_raised_hand : Bool
  hand_side : Option String
deriving DecidableEq

/-- One track record of `FairMOTTracker.tracks` (main_with_car.py, lines
152-159). -/
structure Track (α : Type) : Type where
  bbox : Box
  features : α
  age : Nat
  hits : Nat
  center : Int × Int
  trail : List (Int × Int)
deriving DecidableEq

/-- Appending to the trail deque of capacity 50: the oldest point is
dropped on overflow. -/
def appendTrail (trail : List (Int × Int)) (c : Int × Int) : List (Int × Int) :=
  let t := trail ++ [c]
  if 50 < t.length then t.drop (t.length - 50) else t

/-- A freshly created track for an unmatched detection (main_with_car.py,
lines 150-159): `age = 0`, `hits = 1`, trail seeded with the center. -/
def newTrackOfDet (d : Det α) : Track α :=
  { bbox := d.bbox
    features := d.features
    age := 0
    hits := 1
    center := d.center
    trail := [d.center] }

/-- The in-place refresh of a matched track (main_with_car.py, lines
137-145): box, features and center refreshed, `age` reset to 0, `hits`
incremented, center appended to the trail. -/
def updateMatchedTrack (tr : Track α) (d : Det α) : Track α :=
  { tr with
    bbox := d.bbox
    features := d.features
    age := 0
    hits := tr.hits + 1
    center := d.center
    trail := appendTrail tr.trail d.center }

/-- The fused association score (main_with_car.py, line 129):
`0.4 * IoU + 0.6 * feature similarity`. -/
def matchScore (sim : α → α → ℚ) (tr : Track α) (d : Det α) : ℚ :=
  (0.4 : ℚ) * calculate_iou tr.bbox d.bbox + (0.6 : ℚ) * sim tr.features d.features

/-- The inner loop of lines 117-133: scan the detections in index order
(`i` is the index of the head of the remaining list), considering only
still-unmatched indices, and keep the first strictly best score; the
accumulator starts at `(none, 0)` mirroring `best_match_idx = -1`,
`best_score = 0`. -/
def findBestAux (sim : α → α → ℚ) (tr : Track α) (unmatched : List Nat) :
    List (Det α) → Nat → Option Nat × ℚ → Option Nat × ℚ
  | [], _, acc => acc
  | d :: ds, i, acc =>
      if i ∈ unmatched then
        let score := matchScore sim tr d
        if acc.2 < score then findBestAux sim tr unmatched ds (i + 1) (some i, score)
        else findBestAux sim tr unmatched ds (i + 1) acc
      else findBestAux sim tr unmatched ds (i + 1) acc

/-- Best still-unmatched detection for one track (main_with_car.py, lines
117-133). -/
def findBest (sim : α → α → ℚ) (tr : Track α) (dets : List (Det α))
    (unmatched : List Nat) : Option Nat × ℚ :=
  findBestAux sim tr unmatched dets 0 (none, 0)

/-- The greedy matching loop over the existing tracks (main_with_car.py,
lines 113-147).  Returns the refreshed track list (same keys, same order),
the list `matched_tracks` of matched ids, the accepted assignments as
`(track id, detection index)` pairs (an observation of the per-track
`detections[best_match_idx]` update; `matched_tracks` is its first
projection), and the remaining unmatched-detection pool.  A match is
accepted only when a best index exists and its score strictly exceeds the
threshold; the accepted index is removed from the pool before the next
track is processed. -/
def matchLoop (sim : α → α → ℚ) (thr : ℚ) (dets : List (Det α)) :
    List (Nat × Track α) → List Nat →
    List (Nat × Track α) × List Nat × List (Nat × Nat) × List Nat
  | [], unmatched => ([], [], [], unmatched)
  | (tid, tr) :: rest, unmatched =>
      match findBest sim tr dets unmatched with
      | (some i, score) =>
          if thr < score then
            match dets.get? i with
            | some d =>
                let r := matchLoop sim thr dets rest (unmatched.erase i)
                ((tid, updateMatchedTrack tr d) :: r.1, tid :: r.2.1,
                  (tid, i) :: r.2.2.1, r.2.2.2)
            | none =>
                let r := matchLoop sim thr dets rest unmatched
                ((tid, tr) :: r.1, r.2.1, r.2.2.1, r.2.2.2)
          else
            let r := matchLoop sim thr dets rest unmatched
            ((tid, tr) :: r.1, r.2.1, r.2.2.1, r.2.2.2)
      | (none, _) =>
          let r := matchLoop sim thr dets rest unmatched
          ((tid, tr) :: r.1, r.2.1, r.2.2.1, r.2.2.2)

/-- Creation of new tracks for the remaining unmatched detection indices
(main_with_car.py, lines 149-160): ids `nid, nid + 1, ...` are assigned in
pool order and the entries appended; returns the new entries and the next
fresh id. -/
def createNew (dets : List (Det α)) : List Nat → Nat → List (Nat × Track α) × Nat
  | [], nid => ([], nid)
  | i :: rest, nid =>
      match dets.get? i with
      | some d =>
          let r := createNew dets rest (nid + 1)
          ((nid, newTrackOfDet d) :: r.1, r.2)
      | none => createNew dets rest nid

/-- The aging-and-eviction pass (main_with_car.py, lines 162-167; with
`matched = []` also the no-detection pass of lines 101-105): every entry
whose id is not matched has its age incremented and is deleted when the new
age exceeds `maxAge`. -/
def agePass (matched : List Nat) (maxAge : Nat) :
    List (Nat × Track α) → List (Nat × Track α)
  | [] => []
  | (tid, tr) :: rest =>
      if tid ∈ matched then (tid, tr) :: agePass matched maxAge rest
      else
        let tr2 : Track α := { tr with age := tr.age + 1 }
        if maxAge < tr2.age then agePass matched maxAge rest
        else (tid, tr2) :: agePass matched maxAge rest

/-- State of `FairMOTTracker` (main_with_car.py, lines 20-27).  The
pretrained-weights attribute is I/O only and never read by `update`, so it
is omitted. -/
structure FairMOTTracker (α : Type) : Type where
  tracks : List (Nat × Track α)
  next_id : Nat
  max_age : Nat
  min_hits : Nat
  iou_threshold : ℚ
  feature_threshold : ℚ
deriving DecidableEq

/-- The `__init__` values: empty store, ids from 1, `max_age = 30`,
`min_hits = 3`, `iou_threshold = 0.3`, `feature_threshold = 0.7`. -/
def initTracker (α : Type) : FairMOTTracker α :=
  { tracks := []
    next_id := 1
    max_age := 30
    min_hits := 3
    iou_threshold := (0.3 : ℚ)
    feature_threshold := (0.7 : ℚ) }

/-- Model of `FairMOTTracker.update` (main_with_car.py, lines 98-176).
With no detections, all tracks are aged, over-age tracks evicted, and the
empty list returned.  Otherwise the greedy matching runs over the existing
tracks, new tracks are appended for the unmatched detections, the aging
pass runs over every id not in `matched_tracks` (which includes the tracks
just created), and the tracks with `hits >= min_hits` are returned as the
confirmed set. -/
def FairMOTTracker.update (sim : α → α → ℚ) (t : FairMOTTracker α)
    (dets : List (Det α)) : FairMOTTracker α × List (Nat × Track α) :=
  if dets.isEmpty then
    ({ t with tracks := agePass [] t.max_age t.tracks }, [])
  else
    let r := matchLoop sim t.feature_threshold dets t.tracks (List.range dets.length)
    let c := createNew dets r.2.2.2 t.next_id
    let kept := agePass r.2.1 t.max_age (r.1 ++ c.1)
    ({ t with tracks := kept, next_id := c.2 },
      kept.filter fun p => t.min_hits ≤ p.2.hits)

/-! ### The per-frame lock logic (`main_with_car.py`, `PersonTracker`) -/

/-- One call into the car controller made by `process_frame`, observed
rather than executed (the dispatcher itself is modelled separately above):
either `emergency_stop()` or `handle_person_tracking(center, dims,
has_raised_hand, hand_side)`. -/
inductive CarCmd : Type
  | emergencyStop
  | handleTracking (center : Option (Int × Int)) (hasHand : Bool)
      (side : Option String)
deriving DecidableEq

/-- The `PersonTracker` attributes read and written by `process_frame`
(main_with_car.py, lines 182-198), apart from the embedded
`FairMOTTracker`, which is passed separately. -/
structure ProcState : Type where
  tracked_person_id : Option Nat
  last_detection_time : Option ℚ
  person_gone_threshold : ℚ
  person_locked : Bool
  frame_count : Nat
  car_connected : Bool
  tracking_enabled : Bool
  frame_dimensions : Nat × Nat
deriving DecidableEq

/-- A track dict as returned by `process_frame`: the confirmed track
augmented (lines 420-431) with the raised-hand data of the nearest
detection. -/
structure OutTrack (α : Type) : Type where
  id : Nat
  tr : Track α
  has_raised_hand : Bool
  hand_side : Option String
deriving DecidableEq

/-- The test `calculate_distance(a, b) < 50` of line 427: the Euclidean
distance of two integer points is below 50 exactly when the squared
distance is below 2500, which avoids the square root. -/
def distLt50 (a b : Int × Int) : Bool :=
  decide ((a.1 - b.1) ^ 2 + (a.2 - b.2) ^ 2 < 2500)

/-- The hand-information attachment loop (lines 420-431): the flags default
to `False`/`None` and are copied from the first detection within distance
50 of the track center. -/
def attachHand (dets : List (Det α)) (p : Nat × Track α) : OutTrack α :=
  match dets.find? (fun d => distLt50 p.2.center d.center) with
  | some d => ⟨p.1, p.2, d.has_raised_hand, d.hand_side⟩
  | none => ⟨p.1, p.2, false, none⟩

/-- The soft-tracking selection of line 481:
`min(tracks, key=lambda t: abs(t.center.x - frame_center_x))`, keeping the
first element among ties. -/
def closestTrack (outs : List (OutTrack α)) (cx : Int) : Option (OutTrack α) :=
  outs.foldl
    (fun acc o =>
      match acc with
      | none => some o
      | some b => if |o.tr.center.1 - cx| < |b.tr.center.1 - cx| then some o else some b)
    none

/-- Model of `PersonTracker.process_frame` (main_with_car.py, lines
341-494).  The frame itself enters only through its detections and its
dimensions, so the input is the dimensions `dims` plus
`none` when the YOLO call returned no result objects (the branch of lines
352-373) or `some dets` for the detections surviving the confidence filter
(`some []` takes the early return of lines 407-414).  Python truthiness of
`last_detection_time` (a float) is `some t0` with `t0 ≠ 0`.  The result is
the tracker state, the `PersonTracker` state, the returned track list, and
the car-controller calls made, in order. -/
def process_frame (sim : α → α → ℚ) (fm : FairMOTTracker α) (s : ProcState)
    (now : ℚ) (dims : Nat × Nat) (input : Option (List (Det α))) :
    FairMOTTracker α × ProcState × List (OutTrack α) × List CarCmd :=
  let s0 := { s with frame_count := s.frame_count + 1, frame_dimensions := dims }
  match input with
  | none =>
      let fm1 := (FairMOTTracker.update sim fm []).1
      let su :=
        match s0.last_detection_time with
        | some t0 =>
            if s0.person_locked = true ∧ t0 ≠ 0 ∧
                s0.person_gone_threshold < now - t0 then
              ({ s0 with person_locked := false, tracked_person_id := none },
                if s0.car_connected = true then [CarCmd.emergencyStop] else [])
            else (s0, [])
        | none => (s0, [])
      let cmds :=
        su.2 ++
          if s0.car_connected = true ∧ s0.tracking_enabled = true then
            [CarCmd.handleTracking none false none]
          else []
      (fm1, su.1, [], cmds)
  | some dets =>
      if dets.isEmpty then
        let fm1 := (FairMOTTracker.update sim fm []).1
        let cmds :=
          if s0.car_connected = true ∧ s0.tracking_enabled = true then
            [CarCmd.handleTracking none false none]
          else []
        (fm1, s0, [], cmds)
      else
        let r := FairMOTTracker.update sim fm dets
        let outs := r.2.map (attachHand dets)
        let s1 :=
          if s0.person_locked = false then
            match outs.find? (fun o => o.has_raised_hand) with
            | some o =>
                { s0 with
                    person_locked := true
                    tracked_person_id := some o.id
                    last_detection_time := some now }
            | none => s0
          else s0
        if s1.person_locked = true then
          match outs.find? (fun o => s1.tracked_person_id = some o.id) with
          | some o =>
              let s2 := { s1 with last_detection_time := some now }
              let cmds :=
                if s1.car_connected = true ∧ s1.tracking_enabled = true then
                  [CarCmd.handleTracking (some o.tr.center) o.has_raised_hand o.hand_side]
                else []
              (r.1, s2, [o], cmds)
          | none =>
              let timeSince : ℚ :=
                match s1.last_detection_time with
                | some t0 => if t0 ≠ 0 then now - t0 else 0
                | none => 0
              if s1.person_gone_threshold < timeSince then
                let s2 := { s1 with person_locked := false, tracked_person_id := none }
                let cmds1 := if s1.car_connected = true then [CarCmd.emergencyStop] else []
                let cmds2 :=
                  if s2.car_connected = true ∧ s2.tracking_enabled = true then
                    [CarCmd.handleTracking none false none]
                  else []
                (r.1, s2, [], cmds1 ++ cmds2)
              else (r.1, s1, [], [])
        else
          let cmds :=
            if s1.car_connected = true ∧ s1.tracking_enabled = true then
              match closestTrack outs ((dims.1 : Int) / 2) with
              | some o => [CarCmd.handleTracking (some o.tr.center) false none]
              | none => [CarCmd.handleTracking none false none]
            else []
          (r.1, s1, outs, cmds)

/-! ### Statement abbreviations for the larger claims -/

/-- The greedy association process, turn by turn, as the claim describes
it.  `GreedyRun sim thr dets ts u r` holds when `r` (refreshed tracks,
matched ids, assignments, final pool) is a possible outcome of processing
the tracks `ts` in order starting from the unmatched-detection pool `u`:
at each turn, with `u` the pool of that turn, either some detection
accepted for this track belongs to the current pool, scores strictly above
the threshold and at least as high as every detection still in the current
pool — then it is claimed, recorded, and removed from the pool before the
next track — or every detection of the current pool scores at most the
threshold and the track stays unmatched with the pool unchanged. -/
inductive GreedyRun (sim : α → α → ℚ) (thr : ℚ) (dets : List (Det α)) :
    List (Nat × Track α) → List Nat →
    List (Nat × Track α) × List Nat × List (Nat × Nat) × List Nat → Prop
  | nil (u : List Nat) : GreedyRun sim thr dets [] u ([], [], [], u)
  | matched (tid : Nat) (tr : Track α) (rest : List (Nat × Track α))
      (u : List Nat) (i : Nat) (d : Det α)
      (r : List (Nat × Track α) × List Nat × List (Nat × Nat) × List Nat) :
      i ∈ u → dets.get? i = some d → thr < matchScore sim tr d →
      (∀ j ∈ u, ∀ e, dets.get? j = some e →
        matchScore sim tr e ≤ matchScore sim tr d) →
      GreedyRun sim thr dets rest (u.erase i) r →
      GreedyRun sim thr dets ((tid, tr) :: rest) u
        ((tid, updateMatchedTrack tr d) :: r.1, tid :: r.2.1,
          (tid, i) :: r.2.2.1, r.2.2.2)
  | unmatched (tid : Nat) (tr : Track α) (rest : List (Nat × Track α))
      (u : List Nat)
      (r : List (Nat × Track α) × List Nat × List (Nat × Nat) × List Nat) :
      (∀ j ∈ u, ∀ e, dets.get? j = some e → matchScore sim tr e ≤ thr) →
      GreedyRun sim thr dets rest u r →
      GreedyRun sim thr dets ((tid, tr) :: rest) u
        ((tid, tr) :: r.1, r.2.1, r.2.2.1, r.2.2.2)

/-- Specification of the greedy associator (claim C9): the matching loop
is a greedy run — at every turn the accepted detection is drawn from, and
maximal over, the unmatched pool of that turn, is accepted only with a
score strictly above the threshold, and leaves the pool before the next
track is processed, while a track whose best current-pool score does not
exceed the threshold stays unmatched; further, the claimed indices are
pairwise distinct (no detection is assigned to two tracks), the final pool
is exactly the unclaimed part of the initial pool, and `matched_tracks`
lists exactly the assigned track ids. -/
def GreedyMatchSpec (sim : α → α → ℚ) (thr : ℚ) (dets : List (Det α))
    (ts : List (Nat × Track α)) (u : List Nat) : Prop :=
  GreedyRun sim thr dets ts u (matchLoop sim thr dets ts u) ∧
  ((matchLoop sim thr dets ts u).2.2.1.map Prod.snd).Nodup ∧
  (∀ j, j ∈ (matchLoop sim thr dets ts u).2.2.2 ↔
    j ∈ u ∧ j ∉ (matchLoop sim thr dets ts u).2.2.1.map Prod.snd) ∧
  (matchLoop sim thr dets ts u).2.1 =
    (matchLoop sim thr dets ts u).2.2.1.map Prod.fst

/-- Specification of the confirmed-track return (claim C7, restricted to a
nonempty detection list): the returned set is exactly the live tracks with
`hits >= min_hits`, and every live track either descends from a previous
track with `hits` preserved or incremented by one, or is newly created with
`hits = 1`. -/
def ConfirmedReturnSpec (sim : α → α → ℚ) (t : FairMOTTracker α)
    (dets : List (Det α)) : Prop :=
  (∀ p, p ∈ (FairMOTTracker.update sim t dets).2 ↔
    p ∈ (FairMOTTracker.update sim t dets).1.tracks ∧ 3 ≤ p.2.hits) ∧
  (∀ p ∈ (FairMOTTracker.update sim t dets).1.tracks,
    (∃ q ∈ t.tracks, q.1 = p.1 ∧
      (p.2.hits = q.2.hits ∨ p.2.hits = q.2.hits + 1)) ∨ p.2.hits = 1)

/-- Specification of eviction and id freshness (claim C8): `next_id` is
monotone; every stored id is below `next_id`; every stored id is an old id
or at least the old `next_id` (so an evicted id, being below every later
`next_id`, is never reassigned); every stored age is at most `max_age`; a
track evicted by this update had age exactly `max_age` (so eviction happens
exactly on the frame where the incremented age first exceeds `max_age`); a
track whose incremented age would not exceed `max_age` survives; and the
stored ids remain pairwise distinct. -/
def EvictionIdSpec (sim : α → α → ℚ) (t : FairMOTTracker α)
    (dets : List (Det α)) : Prop :=
  t.next_id ≤ (FairMOTTracker.update sim t dets).1.next_id ∧
  (∀ p ∈ (FairMOTTracker.update sim t dets).1.tracks,
    p.1 < (FairMOTTracker.update sim t dets).1.next_id) ∧
  (∀ p ∈ (FairMOTTracker.update sim t dets).1.tracks,
    (∃ q ∈ t.tracks, q.1 = p.1) ∨ t.next_id ≤ p.1) ∧
  (∀ p ∈ (FairMOTTracker.update sim t dets).1.tracks, p.2.age ≤ t.max_age) ∧
  (∀ p ∈ t.tracks,
    (∀ tr, (p.1, tr) ∉ (FairMOTTracker.update sim t dets).1.tracks) →
    p.2.age = t.max_age) ∧
  (∀ p ∈ t.tracks, p.2.age + 1 ≤ t.max_age →
    ∃ tr, (p.1, tr) ∈ (FairMOTTracker.update sim t dets).1.tracks) ∧
  ((FairMOTTracker.update sim t dets).1.tracks.map Prod.fst).Nodup

/-- Specification of the disappearance timeout (claim C4, amended): with
the system locked on `pid`, last seen at `t0`, and `pid` absent from this
confirmed tracks of this frame, the lock is retained (and no emergency stop
issued) while `now - t0` is within the threshold; once `now - t0` exceeds
the threshold the lock is released, the id cleared and exactly one
emergency stop issued — except on a frame whose detection results are
nonempty but contain no confident detection (`input = some []`), which
skips the timeout check entirely and retains the lock. -/
def LockTimeoutSpec (sim : α → α → ℚ) (fm : FairMOTTracker α) (s : ProcState)
    (now t0 : ℚ) (pid : Nat) (dims : Nat × Nat)
    (input : Option (List (Det α))) : Prop :=
  (∀ dets, input = some dets →
    ∀ p ∈ (FairMOTTracker.update sim fm dets).2, p.1 ≠ pid) →
  ((now - t0 ≤ 10 →
    (process_frame sim fm s now dims input).2.1.person_locked = true ∧
    (process_frame sim fm s now dims input).2.1.tracked_person_id = some pid ∧
    CarCmd.emergencyStop ∉ (process_frame sim fm s now dims input).2.2.2) ∧
  ((10 : ℚ) < now - t0 → input ≠ some [] →
    (process_frame sim fm s now dims input).2.1.person_locked = false ∧
    (process_frame sim fm s now dims input).2.1.tracked_person_id = none ∧
    (process_frame sim fm s now dims input).2.2.2.count CarCmd.emergencyStop = 1) ∧
  (input = some [] →
    (process_frame sim fm s now dims input).2.1.person_locked = true ∧
    (process_frame sim fm s now dims input).2.1.tracked_person_id = some pid ∧
    CarCmd.emergencyStop ∉ (process_frame sim fm s now dims input).2.2.2))

/-- Specification of the locked-state track filter (claim C10): while
locked on `pid`, every returned track has id `pid`, at most one track is
returned, and every confirmed track the tracker produced this frame — the
withheld ones included — is still present in the track store. -/
def LockedFilterSpec (sim : α → α → ℚ) (fm : FairMOTTracker α) (s : ProcState)
    (now : ℚ) (dims : Nat × Nat) (input : Option (List (Det α)))
    (pid : Nat) : Prop :=
  (∀ o ∈ (process_frame sim fm s now dims input).2.2.1, o.id = pid) ∧
  (process_frame sim fm s now dims input).2.2.1.length ≤ 1 ∧
  (∀ dets, input = some dets → dets ≠ [] →
    ∀ p ∈ (FairMOTTracker.update sim fm dets).2,
      p ∈ (process_frame sim fm s now dims input).1.tracks)

/-! ### Concrete fixtures for counterexamples and witnesses -/

/-- Dispatcher state in which both channels last sent the stop values at
t = 0. -/
def stateBothStop : CarState :=
  { lastGesture := some "none"
    lastTrackingAction := some "track_center"
    lastCommandTime := 0
    minCommandInterval := 1/10
    frameCenterThreshold := 50
    trackingEnabled := true }

/-- Dispatcher state with last tracking action `"track_left"` accepted at
t = 0. -/
def stateTrackLeft : CarState :=
  { lastGesture := none
    lastTrackingAction := some "track_left"
    lastCommandTime := 0
    minCommandInterval := 1/10
    frameCenterThreshold := 50
    trackingEnabled := true }

/-- Dispatcher state with last gesture `"left"` accepted at t = 0. -/
def stateGestureLeft : CarState :=
  { lastGesture := some "left"
    lastTrackingAction := none
    lastCommandTime := 0
    minCommandInterval := 1/10
    frameCenterThreshold := 50
    trackingEnabled := true }

/-- Dispatcher state with last tracking action `"track_center"` accepted at
t = 0 and nothing sent yet on the gesture channel. -/
def stateCenterSent : CarState :=
  { lastGesture := none
    lastTrackingAction := some "track_center"
    lastCommandTime := 0
    minCommandInterval := 1/10
    frameCenterThreshold := 50
    trackingEnabled := true }

/-- Trivial similarity on unit features, scoring 1 for every pair. -/
def simOne : Unit → Unit → ℚ := fun _ _ => 1

/-- A fixed test box. -/
def boxW : Box := { x1 := 0, y1 := 0, x2 := 10, y2 := 10 }

/-- A fixed test detection with unit features. -/
def detW : Det Unit :=
  { bbox := boxW
    features := ()
    center := (5, 5)
    has_raised_hand := false
    hand_side := none }

/-- A seed track built from `detW`. -/
def trackSeed : Track Unit := newTrackOfDet detW

/-- Tracker state after one update of the fresh tracker with `detW`. -/
def trkW1 : FairMOTTracker Unit :=
  (FairMOTTracker.update simOne (initTracker Unit) [detW]).1

/-- Tracker state after two updates with `detW`. -/
def trkW2 : FairMOTTracker Unit := (FairMOTTracker.update simOne trkW1 [detW]).1

/-- Tracker state after three updates with `detW`; its single track has
`hits = 3` and is confirmed. -/
def trkW3 : FairMOTTracker Unit := (FairMOTTracker.update simOne trkW2 [detW]).1

/-- A `PersonTracker` state locked on person 1, last seen at t = 1, with
the car connected and tracking enabled. -/
def lockedState : ProcState :=
  { tracked_person_id := some 1
    last_detection_time := some 1
    person_gone_threshold := 10
    person_locked := true
    frame_count := 0
    car_connected := true
    tracking_enabled := true
    frame_dimensions := (640, 480) }

/-! ### Dispatcher helper lemmas -/

theorem send_hand_gesture_of_dup (s : CarState) (g : String) (now : ℚ)
    (net : NetOutcome)
    (hc : s.lastGesture = some g ∧ now - s.lastCommandTime < s.minCommandInterval) :
    send_hand_gesture s g now net = ⟨true, s, false⟩ := by
  unfold send_hand_gesture
  rw [if_pos hc]

theorem send_hand_gesture_of_fresh (s : CarState) (g : String) (now : ℚ)
    (hc : ¬(s.lastGesture = some g ∧ now - s.lastCommandTime < s.minCommandInterval)) :
    send_hand_gesture s g now NetOutcome.ok =
      ⟨true, { s with lastGesture := some g, lastCommandTime := now }, true⟩ := by
  unfold send_hand_gesture
  rw [if_neg hc]

theorem send_hand_gesture_tx_false_iff (s : CarState) (g : String) (now : ℚ)
    (net : NetOutcome) :
    (send_hand_gesture s g now net).transmitted = false ↔
      s.lastGesture = some g ∧ now - s.lastCommandTime < s.minCommandInterval := by
  unfold send_hand_gesture
  split_ifs with hc
  · exact iff_of_true rfl hc
  · cases net <;> exact iff_of_false (by simp) hc

theorem send_tracking_command_of_dup (s : CarState) (a : String) (now : ℚ)
    (net : NetOutcome)
    (hc : s.lastTrackingAction = some a ∧ now - s.lastCommandTime < s.minCommandInterval) :
    send_tracking_command s a now net = ⟨true, s, false⟩ := by
  unfold send_tracking_command
  rw [if_pos hc]

theorem send_tracking_command_of_fresh (s : CarState) (a : String) (now : ℚ)
    (hc : ¬(s.lastTrackingAction = some a ∧ now - s.lastCommandTime < s.minCommandInterval)) :
    send_tracking_command s a now NetOutcome.ok =
      ⟨true, { s with lastTrackingAction := some a, lastCommandTime := now }, true⟩ := by
  unfold send_tracking_command
  rw [if_neg hc]

theorem send_tracking_command_tx_false_iff (s : CarState) (a : String) (now : ℚ)
    (net : NetOutcome) :
    (send_tracking_command s a now net).transmitted = false ↔
      s.lastTrackingAction = some a ∧ now - s.lastCommandTime < s.minCommandInterval := by
  unfold send_tracking_command
  split_ifs with hc
  · exact iff_of_true rfl hc
  · cases net <;> exact iff_of_false (by simp) hc

theorem send_hand_gesture_tx_true_iff (s : CarState) (g : String) (now : ℚ)
    (net : NetOutcome) :
    (send_hand_gesture s g now net).transmitted = true ↔
      ¬(s.lastGesture = some g ∧ now - s.lastCommandTime < s.minCommandInterval) := by
  rw [← send_hand_gesture_tx_false_iff s g now net]
  cases h : (send_hand_gesture s g now net).transmitted <;> simp

theorem send_tracking_command_tx_true_iff (s : CarState) (a : String) (now : ℚ)
    (net : NetOutcome) :
    (send_tracking_command s a now net).transmitted = true ↔
      ¬(s.lastTrackingAction = some a ∧ now - s.lastCommandTime < s.minCommandInterval) := by
  rw [← send_tracking_command_tx_false_iff s a now net]
  cases h : (send_tracking_command s a now net).transmitted <;> simp

/-! ### Claims C1, C2, C3, C5, C6 — the command dispatcher -/

/-- C1, counterexample.  The claim says `emergency_stop` transmits on both
channels regardless of dispatcher state.  In the state where the last sent
gesture is already `"none"`, the last tracking action is already
`"track_center"`, and the cooldown since the last accepted send has not
elapsed (last accepted send at t = 0, stop at t = 1/20 < 1/10),
`emergency_stop` performs no transmission at all on either channel — both
sends hit the duplicate-plus-cooldown guard — and still reports success. -/
theorem emergency_stop_not_transmitted_cex :
    (emergency_stop stateBothStop (1/20) (1/20) NetOutcome.ok NetOutcome.ok).gestureTransmitted = false ∧
    (emergency_stop stateBothStop (1/20) (1/20) NetOutcome.ok NetOutcome.ok).trackingTransmitted = false ∧
    (emergency_stop stateBothStop (1/20) (1/20) NetOutcome.ok NetOutcome.ok).ret = true := by
  have h1 : send_hand_gesture stateBothStop "none" (1/20) NetOutcome.ok =
      ⟨true, stateBothStop, false⟩ :=
    send_hand_gesture_of_dup _ _ _ _ ⟨rfl, by norm_num [stateBothStop]⟩
  have h2 : send_tracking_command stateBothStop "track_center" (1/20) NetOutcome.ok =
      ⟨true, stateBothStop, false⟩ :=
    send_tracking_command_of_dup _ _ _ _ ⟨rfl, by norm_num [stateBothStop]⟩
  refine ⟨?_, ?_, ?_⟩ <;> simp only [emergency_stop, h1, h2] <;> rfl

/-- C1, amended.  `emergency_stop` routes through the ordinary send paths
with no bypass: the gesture channel transmits exactly when its
duplicate-plus-cooldown suppression for `"none"` does not apply, and the
tracking channel transmits exactly when its suppression for
`"track_center"` does not apply in the state left by the gesture send. -/
theorem emergency_stop_suppression_spec (s : CarState) (t1 t2 : ℚ)
    (n1 n2 : NetOutcome) :
    ((emergency_stop s t1 t2 n1 n2).gestureTransmitted =
        (send_hand_gesture s "none" t1 n1).transmitted ∧
      (emergency_stop s t1 t2 n1 n2).trackingTransmitted =
        (send_tracking_command (send_hand_gesture s "none" t1 n1).state
          "track_center" t2 n2).transmitted) ∧
    ((emergency_stop s t1 t2 n1 n2).gestureTransmitted = false ↔
      s.lastGesture = some "none" ∧
        t1 - s.lastCommandTime < s.minCommandInterval) ∧
    ((emergency_stop s t1 t2 n1 n2).trackingTransmitted = false ↔
      (send_hand_gesture s "none" t1 n1).state.lastTrackingAction = some "track_center" ∧
        t2 - (send_hand_gesture s "none" t1 n1).state.lastCommandTime <
          (send_hand_gesture s "none" t1 n1).state.minCommandInterval) := by
  refine ⟨⟨rfl, rfl⟩, ?_, ?_⟩
  · exact send_hand_gesture_tx_false_iff s "none" t1 n1
  · exact send_tracking_command_tx_false_iff
      (send_hand_gesture s "none" t1 n1).state "track_center" t2 n2

/-- C2, counterexample.  The claim says a value differing from the last
accepted value, arriving during an active cooldown, is dropped with no
network transmission.  With last tracking action `"track_left"` accepted at
t = 0 and cooldown 1/10, sending `"track_right"` at t = 1/20 (cooldown
still active) is transmitted over the network, not dropped; likewise on the
gesture channel with `"left"` then `"right"`. -/
theorem new_value_during_cooldown_transmitted_cex :
    (send_tracking_command stateTrackLeft "track_right" (1/20) NetOutcome.ok).transmitted = true ∧
    (send_hand_gesture stateGestureLeft "right" (1/20) NetOutcome.ok).transmitted = true := by
  constructor
  · rw [send_tracking_command_tx_true_iff]
    simp [stateTrackLeft]
  · rw [send_hand_gesture_tx_true_iff]
    simp [stateGestureLeft]

/-- C2, amended.  A send whose value differs from the last accepted value
on its channel is always transmitted, regardless of the cooldown;
suppression applies only to a duplicate value during an active cooldown. -/
theorem differing_value_always_transmitted (s : CarState) (g a : String)
    (now : ℚ) (net : NetOutcome) :
    (s.lastGesture ≠ some g → (send_hand_gesture s g now net).transmitted = true) ∧
    (s.lastTrackingAction ≠ some a →
      (send_tracking_command s a now net).transmitted = true) := by
  constructor
  · intro h
    rw [send_hand_gesture_tx_true_iff]
    exact fun hc => h hc.1
  · intro h
    rw [send_tracking_command_tx_true_iff]
    exact fun hc => h hc.1

/-- C2, amended, witness: the amended statement applied at the
counterexample state, with a failing network this time. -/
theorem differing_value_always_transmitted_witness :
    (send_tracking_command stateTrackLeft "track_right" (1/20) NetOutcome.badStatus).transmitted = true :=
  (differing_value_always_transmitted stateTrackLeft "x" "track_right" (1/20)
    NetOutcome.badStatus).2 (by simp [stateTrackLeft])

/-- C3.  On each channel, a send is suppressed — it returns `True`, leaves
the state untouched and performs no network call — exactly when the value
equals the last accepted value and the elapsed time since the last accepted
send is below the cooldown interval; a transmitted send that gets HTTP 200
returns `True` and updates the last accepted value and the shared cooldown
timestamp. -/
theorem send_suppression_spec (s : CarState) (g a : String) (now : ℚ)
    (net : NetOutcome) :
    (send_hand_gesture s g now net = ⟨true, s, false⟩ ↔
      s.lastGesture = some g ∧ now - s.lastCommandTime < s.minCommandInterval) ∧
    (¬(s.lastGesture = some g ∧ now - s.lastCommandTime < s.minCommandInterval) →
      net = NetOutcome.ok →
      send_hand_gesture s g now net =
        ⟨true, { s with lastGesture := some g, lastCommandTime := now }, true⟩) ∧
    (send_tracking_command s a now net = ⟨true, s, false⟩ ↔
      s.lastTrackingAction = some a ∧
        now - s.lastCommandTime < s.minCommandInterval) ∧
    (¬(s.lastTrackingAction = some a ∧
        now - s.lastCommandTime < s.minCommandInterval) →
      net = NetOutcome.ok →
      send_tracking_command s a now net =
        ⟨true, { s with lastTrackingAction := some a, lastCommandTime := now },
          true⟩) := by
  refine ⟨?_, ?_, ?_, ?_⟩
  · constructor
    · intro h
      rw [← send_hand_gesture_tx_false_iff s g now net, h]
    · intro hc
      exact send_hand_gesture_of_dup s g now net hc
  · intro hc hnet
    subst hnet
    exact send_hand_gesture_of_fresh s g now hc
  · constructor
    · intro h
      rw [← send_tracking_command_tx_false_iff s a now net, h]
    · intro hc
      exact send_tracking_command_of_dup s a now net hc
  · intro hc hnet
    subst hnet
    exact send_tracking_command_of_fresh s a now hc

/-- C3, witness: a non-duplicate gesture send in the initial state is
transmitted and refreshes the channel value and the shared timestamp. -/
theorem send_suppression_spec_witness :
    send_hand_gesture (initCarState 0) "left" 5 NetOutcome.ok =
      ⟨true,
        { initCarState 0 with lastGesture := some "left", lastCommandTime := 5 },
        true⟩ :=
  (send_suppression_spec (initCarState 0) "left" "x" 5 NetOutcome.ok).2.1
    (by simp [initCarState]) rfl

/-- C5, counterexample.  The claim says an accepted send on the gesture
channel leaves the tracking channel timestamp unchanged, so one channel
never alters the cooldown decision of the other.  In fact the timestamp is
shared: starting from a last accepted send at t = 0, a duplicate
`"track_center"` at t = 1/4 would be transmitted (cooldown long expired),
but after a gesture send `"left"` accepted at t = 1/5 the very same
tracking send at t = 1/4 is suppressed, because the gesture send refreshed
the shared `last_command_time`. -/
theorem shared_cooldown_timestamp_cex :
    (send_tracking_command stateCenterSent "track_center" (1/4) NetOutcome.ok).transmitted = true ∧
    (send_tracking_command
      (send_hand_gesture stateCenterSent "left" (1/5) NetOutcome.ok).state
      "track_center" (1/4) NetOutcome.ok).transmitted = false := by
  have h1 : send_hand_gesture stateCenterSent "left" (1/5) NetOutcome.ok =
      ⟨true, { stateCenterSent with lastGesture := some "left", lastCommandTime := 1/5 },
        true⟩ :=
    send_hand_gesture_of_fresh _ _ _ (by simp [stateCenterSent])
  constructor
  · rw [send_tracking_command_tx_true_iff]
    intro hc
    have := hc.2
    norm_num [stateCenterSent] at this
  · rw [h1, send_tracking_command_tx_false_iff]
    exact ⟨rfl, by norm_num [stateCenterSent]⟩

/-- C5, amended.  The last accepted value is genuinely per channel — a
gesture send never touches `last_tracking_action` and a tracking send never
touches `last_gesture` — but the last-accepted-send timestamp is a single
shared field: an accepted transmission on either channel sets it to the
send time, and it therefore can change the cooldown decision of the other
channel. -/
theorem channel_value_isolation (s : CarState) (g a : String) (now : ℚ)
    (net : NetOutcome) :
    ((send_hand_gesture s g now net).state.lastTrackingAction =
      s.lastTrackingAction) ∧
    ((send_tracking_command s a now net).state.lastGesture = s.lastGesture) ∧
    ((send_hand_gesture s g now net).transmitted = true → net = NetOutcome.ok →
      (send_hand_gesture s g now net).state.lastCommandTime = now) ∧
    ((send_tracking_command s a now net).transmitted = true →
      net = NetOutcome.ok →
      (send_tracking_command s a now net).state.lastCommandTime = now) := by
  refine ⟨?_, ?_, ?_, ?_⟩
  · unfold send_hand_gesture
    split_ifs with hc
    · rfl
    · cases net <;> rfl
  · unfold send_tracking_command
    split_ifs with hc
    · rfl
    · cases net <;> rfl
  · intro htx hnet
    subst hnet
    rw [send_hand_gesture_tx_true_iff] at htx
    rw [send_hand_gesture_of_fresh s g now htx]
  · intro htx hnet
    subst hnet
    rw [send_tracking_command_tx_true_iff] at htx
    rw [send_tracking_command_of_fresh s a now htx]

/-- C5, amended, witness: at the counterexample state the gesture send
leaves the tracking value alone but moves the shared timestamp to the send
time. -/
theorem channel_value_isolation_witness :
    ((send_hand_gesture stateCenterSent "left" (1/5) NetOutcome.ok).state.lastTrackingAction =
      stateCenterSent.lastTrackingAction) ∧
    ((send_hand_gesture stateCenterSent "left" (1/5) NetOutcome.ok).state.lastCommandTime =
      (1/5 : ℚ)) :=
  ⟨(channel_value_isolation stateCenterSent "left" "x" (1/5) NetOutcome.ok).1,
    (channel_value_isolation stateCenterSent "left" "x" (1/5) NetOutcome.ok).2.2.1
      (by rw [send_hand_gesture_tx_true_iff]; simp [stateCenterSent]) rfl⟩

/-- C6.  The steering decision: with tracking disabled the result is always
`"track_center"`; with tracking enabled the result is `"track_left"`
exactly when the horizontal offset from the frame center is below minus the
pixel threshold, `"track_right"` exactly when it exceeds the threshold, and
`"track_center"` exactly when the offset is within the threshold band.  In
particular, in a 640-wide frame with threshold 50, a center at x = 100
yields `"track_left"` and a center at x = 540 yields `"track_right"`. -/
theorem calculate_tracking_adjustment_spec (s : CarState) (c : Int × Int)
    (dims : Nat × Nat) :
    (s.trackingEnabled = false →
      calculate_tracking_adjustment s c dims = "track_center") ∧
    (s.trackingEnabled = true → 0 ≤ s.frameCenterThreshold →
      ((calculate_tracking_adjustment s c dims = "track_left" ↔
        c.1 - ((dims.1 : Int) / 2) < -s.frameCenterThreshold) ∧
      (calculate_tracking_adjustment s c dims = "track_right" ↔
        s.frameCenterThreshold < c.1 - ((dims.1 : Int) / 2)) ∧
      (calculate_tracking_adjustment s c dims = "track_center" ↔
        -s.frameCenterThreshold ≤ c.1 - ((dims.1 : Int) / 2) ∧
          c.1 - ((dims.1 : Int) / 2) ≤ s.frameCenterThreshold))) ∧
    (s.trackingEnabled = true → s.frameCenterThreshold = 50 →
      calculate_tracking_adjustment s (100, c.2) (640, dims.2) = "track_left" ∧
      calculate_tracking_adjustment s (540, c.2) (640, dims.2) = "track_right") := by
  refine ⟨?_, ?_, ?_⟩
  · intro h
    unfold calculate_tracking_adjustment
    rw [if_pos h]
  · intro h hth
    simp only [calculate_tracking_adjustment, h]
    rw [if_neg (by simp)]
    split_ifs with h1 h2
    · exact ⟨iff_of_true rfl h1,
        iff_of_false (by decide) (by omega),
        iff_of_false (by decide) (by omega)⟩
    · exact ⟨iff_of_false (by decide) (by omega),
        iff_of_true rfl h2,
        iff_of_false (by decide) (by omega)⟩
    · exact ⟨iff_of_false (by decide) (by omega),
        iff_of_false (by decide) (by omega),
        iff_of_true rfl (by omega)⟩
  · intro h ht
    constructor
    · unfold calculate_tracking_adjustment
      rw [if_neg (by simp [h]), ht]
      norm_num
    · unfold calculate_tracking_adjustment
      rw [if_neg (by simp [h]), ht]
      norm_num

/-- C6, witness: the two concrete steering instances of the claim, in the
freshly initialized controller state. -/
theorem calculate_tracking_adjustment_spec_witness :
    calculate_tracking_adjustment (initCarState 0) (100, 240) (640, 480) =
      "track_left" ∧
    calculate_tracking_adjustment (initCarState 0) (540, 240) (640, 480) =
      "track_right" :=
  (calculate_tracking_adjustment_spec (initCarState 0) (100, 240) (640, 480)).2.2
    rfl rfl

/-! ### Lemmas on the best-match scan -/

section TrackerLemmas

variable {α : Type} (sim : α → α → ℚ) (tr : Track α) (u : List Nat)

theorem findBestAux_acc_le (ds : List (Det α)) :
    ∀ (i : Nat) (acc : Option Nat × ℚ), acc.2 ≤ (findBestAux sim tr u ds i acc).2 := by
  induction ds with
  | nil => intro i acc; simp [findBestAux]
  | cons d ds ih =>
    intro i acc
    simp only [findBestAux]
    split_ifs with hm hs
    · exact le_trans (le_of_lt hs) (ih (i + 1) (some i, matchScore sim tr d))
    · exact ih (i + 1) acc
    · exact ih (i + 1) acc

theorem findBestAux_dominates (ds : List (Det α)) :
    ∀ (i : Nat) (acc : Option Nat × ℚ) (k : Nat) (e : Det α),
      ds.get? k = some e → (i + k) ∈ u →
      matchScore sim tr e ≤ (findBestAux sim tr u ds i acc).2 := by
  induction ds with
  | nil => intro i acc k e hk; simp at hk
  | cons d ds ih =>
    intro i acc k e hk hm
    cases k with
    | zero =>
      rw [List.get?_cons_zero] at hk
      have hde : d = e := by injection hk
      rw [Nat.add_zero] at hm
      rw [← hde]
      simp only [findBestAux, if_pos hm]
      split_ifs with hs
      · exact findBestAux_acc_le sim tr u ds (i + 1) (some i, matchScore sim tr d)
      · exact le_trans (not_lt.mp hs) (findBestAux_acc_le sim tr u ds (i + 1) acc)
    | succ k =>
      rw [List.get?_cons_succ] at hk
      have hm2 : (i + 1) + k ∈ u := by
        have : (i + 1) + k = i + (k + 1) := by omega
        rw [this]; exact hm
      simp only [findBestAux]
      split_ifs with hm0 hs
      · exact ih (i + 1) _ k e hk hm2
      · exact ih (i + 1) acc k e hk hm2
      · exact ih (i + 1) acc k e hk hm2

theorem findBestAux_achieves (ds : List (Det α)) :
    ∀ (i : Nat) (acc : Option Nat × ℚ),
      findBestAux sim tr u ds i acc = acc ∨
      ∃ k e, ds.get? k = some e ∧ (i + k) ∈ u ∧
        findBestAux sim tr u ds i acc = (some (i + k), matchScore sim tr e) := by
  induction ds with
  | nil => intro i acc; left; simp [findBestAux]
  | cons d ds ih =>
    intro i acc
    simp only [findBestAux]
    split_ifs with hm hs
    · rcases ih (i + 1) (some i, matchScore sim tr d) with h | ⟨k, e, hk, hmem, hr⟩
      · right
        refine ⟨0, d, rfl, ?_, ?_⟩
        · rw [Nat.add_zero]; exact hm
        · rw [h, Nat.add_zero]
      · right
        refine ⟨k + 1, e, hk, ?_, ?_⟩
        · have : i + (k + 1) = (i + 1) + k := by omega
          rw [this]; exact hmem
        · have : i + (k + 1) = (i + 1) + k := by omega
          rw [this]; exact hr
    · rcases ih (i + 1) acc with h | ⟨k, e, hk, hmem, hr⟩
      · left; exact h
      · right
        refine ⟨k + 1, e, hk, ?_, ?_⟩
        · have : i + (k + 1) = (i + 1) + k := by omega
          rw [this]; exact hmem
        · have : i + (k + 1) = (i + 1) + k := by omega
          rw [this]; exact hr
    · rcases ih (i + 1) acc with h | ⟨k, e, hk, hmem, hr⟩
      · left; exact h
      · right
        refine ⟨k + 1, e, hk, ?_, ?_⟩
        · have : i + (k + 1) = (i + 1) + k := by omega
          rw [this]; exact hmem
        · have : i + (k + 1) = (i + 1) + k := by omega
          rw [this]; exact hr

theorem findBest_dominates (dets : List (Det α)) (j : Nat) (hj : j ∈ u)
    (e : Det α) (he : dets.get? j = some e) :
    matchScore sim tr e ≤ (findBest sim tr dets u).2 := by
  have := findBestAux_dominates sim tr u dets 0 (none, 0) j e he (by rw [Nat.zero_add]; exact hj)
  exact this

theorem findBest_achieves (dets : List (Det α)) (j : Nat)
    (h : (findBest sim tr dets u).1 = some j) :
    j ∈ u ∧ ∃ e, dets.get? j = some e ∧
      (findBest sim tr dets u).2 = matchScore sim tr e := by
  rcases findBestAux_achieves sim tr u dets 0 (none, 0) with h0 | ⟨k, e, hk, hmem, hr⟩
  · rw [show findBest sim tr dets u = findBestAux sim tr u dets 0 (none, 0) from rfl, h0] at h
    exact absurd h (by simp)
  · have hfb : findBest sim tr dets u = (some (0 + k), matchScore sim tr e) := hr
    rw [Nat.zero_add] at hfb hmem
    rw [hfb] at h
    have h2 : some k = some j := h
    injection h2 with h3
    subst h3
    exact ⟨hmem, e, hk, by rw [hfb]⟩

theorem findBest_none (dets : List (Det α))
    (h : (findBest sim tr dets u).1 = none) : (findBest sim tr dets u).2 = 0 := by
  rcases findBestAux_achieves sim tr u dets 0 (none, 0) with h0 | ⟨k, e, hk, hmem, hr⟩
  · rw [show findBest sim tr dets u = findBestAux sim tr u dets 0 (none, 0) from rfl, h0]
  · have hfb : findBest sim tr dets u = (some (0 + k), matchScore sim tr e) := hr
    rw [hfb] at h
    exact absurd h (by simp)

end TrackerLemmas

/-! ### Lemmas on the greedy matching loop -/

section MatchLoopLemmas

variable {α : Type} (sim : α → α → ℚ) (thr : ℚ) (dets : List (Det α))

theorem matchLoop_cons_matched (tid : Nat) (tr : Track α)
    (rest : List (Nat × Track α)) (u : List Nat) (i : Nat) (bs : ℚ) (d : Det α)
    (h1 : findBest sim tr dets u = (some i, bs)) (h2 : thr < bs)
    (h3 : dets.get? i = some d) :
    matchLoop sim thr dets ((tid, tr) :: rest) u =
      ((tid, updateMatchedTrack tr d) :: (matchLoop sim thr dets rest (u.erase i)).1,
        tid :: (matchLoop sim thr dets rest (u.erase i)).2.1,
        (tid, i) :: (matchLoop sim thr dets rest (u.erase i)).2.2.1,
        (matchLoop sim thr dets rest (u.erase i)).2.2.2) := by
  simp only [matchLoop, h1, h3, if_pos h2]

theorem matchLoop_cons_low (tid : Nat) (tr : Track α)
    (rest : List (Nat × Track α)) (u : List Nat) (i : Nat) (bs : ℚ)
    (h1 : findBest sim tr dets u = (some i, bs)) (h2 : ¬ thr < bs) :
    matchLoop sim thr dets ((tid, tr) :: rest) u =
      ((tid, tr) :: (matchLoop sim thr dets rest u).1,
        (matchLoop sim thr dets rest u).2.1,
        (matchLoop sim thr dets rest u).2.2.1,
        (matchLoop sim thr dets rest u).2.2.2) := by
  simp only [matchLoop, h1, if_neg h2]

theorem matchLoop_cons_noget (tid : Nat) (tr : Track α)
    (rest : List (Nat × Track α)) (u : List Nat) (i : Nat) (bs : ℚ)
    (h1 : findBest sim tr dets u = (some i, bs)) (h2 : thr < bs)
    (h3 : dets.get? i = none) :
    matchLoop sim thr dets ((tid, tr) :: rest) u =
      ((tid, tr) :: (matchLoop sim thr dets rest u).1,
        (matchLoop sim thr dets rest u).2.1,
        (matchLoop sim thr dets rest u).2.2.1,
        (matchLoop sim thr dets rest u).2.2.2) := by
  simp only [matchLoop, h1, h3, if_pos h2]

theorem matchLoop_cons_none (tid : Nat) (tr : Track α)
    (rest : List (Nat × Track α)) (u : List Nat) (bs : ℚ)
    (h1 : findBest sim tr dets u = (none, bs)) :
    matchLoop sim thr dets ((tid, tr) :: rest) u =
      ((tid, tr) :: (matchLoop sim thr dets rest u).1,
        (matchLoop sim thr dets rest u).2.1,
        (matchLoop sim thr dets rest u).2.2.1,
        (matchLoop sim thr dets rest u).2.2.2) := by
  simp only [matchLoop, h1]

theorem matchLoop_keys (ts : List (Nat × Track α)) :
    ∀ u, ((matchLoop sim thr dets ts u).1).map Prod.fst = ts.map Prod.fst := by
  induction ts with
  | nil => intro u; simp [matchLoop]
  | cons p rest ih =>
    intro u
    obtain ⟨tid, tr⟩ := p
    rcases hf : findBest sim tr dets u with ⟨bi, bs⟩
    cases bi with
    | none =>
      rw [matchLoop_cons_none sim thr dets tid tr rest u bs hf]
      simp [ih u]
    | some i =>
      by_cases hthr : thr < bs
      · cases hd : dets.get? i with
        | some d =>
          rw [matchLoop_cons_matched sim thr dets tid tr rest u i bs d hf hthr hd]
          simp [ih (u.erase i)]
        | none =>
          rw [matchLoop_cons_noget sim thr dets tid tr rest u i bs hf hthr hd]
          simp [ih u]
      · rw [matchLoop_cons_low sim thr dets tid tr rest u i bs hf hthr]
        simp [ih u]

theorem matchLoop_pool_sublist (ts : List (Nat × Track α)) :
    ∀ u, List.Sublist (matchLoop sim thr dets ts u).2.2.2 u := by
  induction ts with
  | nil => intro u; simp [matchLoop]
  | cons p rest ih =>
    intro u
    obtain ⟨tid, tr⟩ := p
    rcases hf : findBest sim tr dets u with ⟨bi, bs⟩
    cases bi with
    | none =>
      rw [matchLoop_cons_none sim thr dets tid tr rest u bs hf]
      exact ih u
    | some i =>
      by_cases hthr : thr < bs
      · cases hd : dets.get? i with
        | some d =>
          rw [matchLoop_cons_matched sim thr dets tid tr rest u i bs d hf hthr hd]
          exact (ih (u.erase i)).trans (List.erase_sublist i u)
        | none =>
          rw [matchLoop_cons_noget sim thr dets tid tr rest u i bs hf hthr hd]
          exact ih u
      · rw [matchLoop_cons_low sim thr dets tid tr rest u i bs hf hthr]
        exact ih u

theorem matchLoop_asg_pool (ts : List (Nat × Track α)) :
    ∀ u, ∀ a ∈ (matchLoop sim thr dets ts u).2.2.1, a.2 ∈ u := by
  induction ts with
  | nil => intro u a ha; simp [matchLoop] at ha
  | cons p rest ih =>
    intro u a ha
    obtain ⟨tid, tr⟩ := p
    rcases hf : findBest sim tr dets u with ⟨bi, bs⟩
    cases bi with
    | none =>
      rw [matchLoop_cons_none sim thr dets tid tr rest u bs hf] at ha
      exact ih u a ha
    | some i =>
      by_cases hthr : thr < bs
      · cases hd : dets.get? i with
        | some d =>
          rw [matchLoop_cons_matched sim thr dets tid tr rest u i bs d hf hthr hd] at ha
          rcases List.mem_cons.mp ha with h | h
          · subst h
            exact (findBest_achieves sim tr u dets i (by rw [hf])).1
          · exact List.mem_of_mem_erase (ih (u.erase i) a h)
        | none =>
          rw [matchLoop_cons_noget sim thr dets tid tr rest u i bs hf hthr hd] at ha
          exact ih u a ha
      · rw [matchLoop_cons_low sim thr dets tid tr rest u i bs hf hthr] at ha
        exact ih u a ha

theorem matchLoop_ms_eq (ts : List (Nat × Track α)) :
    ∀ u, (matchLoop sim thr dets ts u).2.1 =
      (matchLoop sim thr dets ts u).2.2.1.map Prod.fst := by
  induction ts with
  | nil => intro u; simp [matchLoop]
  | cons p rest ih =>
    intro u
    obtain ⟨tid, tr⟩ := p
    rcases hf : findBest sim tr dets u with ⟨bi, bs⟩
    cases bi with
    | none =>
      rw [matchLoop_cons_none sim thr dets tid tr rest u bs hf]
      exact ih u
    | some i =>
      by_cases hthr : thr < bs
      · cases hd : dets.get? i with
        | some d =>
          rw [matchLoop_cons_matched sim thr dets tid tr rest u i bs d hf hthr hd]
          simp [ih (u.erase i)]
        | none =>
          rw [matchLoop_cons_noget sim thr dets tid tr rest u i bs hf hthr hd]
          exact ih u
      · rw [matchLoop_cons_low sim thr dets tid tr rest u i bs hf hthr]
        exact ih u

theorem matchLoop_mem_bwd (ts : List (Nat × Track α)) :
    ∀ u, ∀ q ∈ (matchLoop sim thr dets ts u).1,
      ∃ p ∈ ts, q.1 = p.1 ∧
        (q.2 = p.2 ∨ (q.2.age = 0 ∧ q.2.hits = p.2.hits + 1)) := by
  induction ts with
  | nil => intro u q hq; simp [matchLoop] at hq
  | cons p rest ih =>
    intro u q hq
    obtain ⟨tid, tr⟩ := p
    rcases hf : findBest sim tr dets u with ⟨bi, bs⟩
    cases bi with
    | none =>
      rw [matchLoop_cons_none sim thr dets tid tr rest u bs hf] at hq
      rcases List.mem_cons.mp hq with h | h
      · exact ⟨(tid, tr), List.mem_cons_self _ _, by rw [h], Or.inl (by rw [h])⟩
      · obtain ⟨p, hp, hkey, hval⟩ := ih u q h
        exact ⟨p, List.mem_cons_of_mem _ hp, hkey, hval⟩
    | some i =>
      by_cases hthr : thr < bs
      · cases hd : dets.get? i with
        | some d =>
          rw [matchLoop_cons_matched sim thr dets tid tr rest u i bs d hf hthr hd] at hq
          rcases List.mem_cons.mp hq with h | h
          · exact ⟨(tid, tr), List.mem_cons_self _ _, by rw [h],
              Or.inr ⟨by subst h; rfl, by subst h; rfl⟩⟩
          · obtain ⟨p, hp, hkey, hval⟩ := ih (u.erase i) q h
            exact ⟨p, List.mem_cons_of_mem _ hp, hkey, hval⟩
        | none =>
          rw [matchLoop_cons_noget sim thr dets tid tr rest u i bs hf hthr hd] at hq
          rcases List.mem_cons.mp hq with h | h
          · exact ⟨(tid, tr), List.mem_cons_self _ _, by rw [h], Or.inl (by rw [h])⟩
          · obtain ⟨p, hp, hkey, hval⟩ := ih u q h
            exact ⟨p, List.mem_cons_of_mem _ hp, hkey, hval⟩
      · rw [matchLoop_cons_low sim thr dets tid tr rest u i bs hf hthr] at hq
        rcases List.mem_cons.mp hq with h | h
        · exact ⟨(tid, tr), List.mem_cons_self _ _, by rw [h], Or.inl (by rw [h])⟩
        · obtain ⟨p, hp, hkey, hval⟩ := ih u q h
          exact ⟨p, List.mem_cons_of_mem _ hp, hkey, hval⟩

theorem matchLoop_unmatched_preserved (ts : List (Nat × Track α)) :
    ∀ u, ∀ p ∈ ts, p.1 ∉ (matchLoop sim thr dets ts u).2.1 →
      p ∈ (matchLoop sim thr dets ts u).1 := by
  induction ts with
  | nil => intro u p hp; simp at hp
  | cons hd0 rest ih =>
    intro u p hp hnm
    obtain ⟨tid, tr⟩ := hd0
    rcases hf : findBest sim tr dets u with ⟨bi, bs⟩
    cases bi with
    | none =>
      rw [matchLoop_cons_none sim thr dets tid tr rest u bs hf] at hnm ⊢
      rcases List.mem_cons.mp hp with h | h
      · exact List.mem_cons.mpr (Or.inl h)
      · exact List.mem_cons_of_mem _ (ih u p h hnm)
    | some i =>
      by_cases hthr : thr < bs
      · cases hd : dets.get? i with
        | some d =>
          rw [matchLoop_cons_matched sim thr dets tid tr rest u i bs d hf hthr hd] at hnm ⊢
          rcases List.mem_cons.mp hp with h | h
          · exfalso
            apply hnm
            rw [h]
            exact List.mem_cons_self _ _
          · refine List.mem_cons_of_mem _ (ih (u.erase i) p h ?_)
            intro hin
            exact hnm (List.mem_cons_of_mem _ hin)
        | none =>
          rw [matchLoop_cons_noget sim thr dets tid tr rest u i bs hf hthr hd] at hnm ⊢
          rcases List.mem_cons.mp hp with h | h
          · exact List.mem_cons.mpr (Or.inl h)
          · exact List.mem_cons_of_mem _ (ih u p h hnm)
      · rw [matchLoop_cons_low sim thr dets tid tr rest u i bs hf hthr] at hnm ⊢
        rcases List.mem_cons.mp hp with h | h
        · exact List.mem_cons.mpr (Or.inl h)
        · exact List.mem_cons_of_mem _ (ih u p h hnm)

theorem matchLoop_matched_spec (ts : List (Nat × Track α)) :
    ∀ u, ∀ a ∈ (matchLoop sim thr dets ts u).2.2.1,
      ∃ tr, (a.1, tr) ∈ ts ∧ ∃ d, dets.get? a.2 = some d ∧
        thr < matchScore sim tr d ∧
        ∀ j ∈ (matchLoop sim thr dets ts u).2.2.2, ∀ e, dets.get? j = some e →
          matchScore sim tr e ≤ matchScore sim tr d := by
  induction ts with
  | nil => intro u a ha; simp [matchLoop] at ha
  | cons p rest ih =>
    intro u a ha
    obtain ⟨tid, tr⟩ := p
    rcases hf : findBest sim tr dets u with ⟨bi, bs⟩
    cases bi with
    | none =>
      rw [matchLoop_cons_none sim thr dets tid tr rest u bs hf] at ha ⊢
      obtain ⟨tr2, htr2, d, hd, hsc, hdom⟩ := ih u a ha
      exact ⟨tr2, List.mem_cons_of_mem _ htr2, d, hd, hsc, hdom⟩
    | some i =>
      by_cases hthr : thr < bs
      · cases hd : dets.get? i with
        | some d =>
          rw [matchLoop_cons_matched sim thr dets tid tr rest u i bs d hf hthr hd] at ha ⊢
          rcases List.mem_cons.mp ha with h | h
          · subst h
            refine ⟨tr, List.mem_cons_self _ _, d, hd, ?_, ?_⟩
            · obtain ⟨hi, e, he, hbs⟩ := findBest_achieves sim tr u dets i (by rw [hf])
              have hed : e = d := by
                rw [hd] at he
                exact (Option.some.inj he).symm
              have hbs2 : bs = matchScore sim tr d := by
                have : (findBest sim tr dets u).2 = matchScore sim tr e := hbs
                rw [hf] at this
                rw [show ((some i : Option Nat), bs).2 = bs from rfl] at this
                rw [this, hed]
              rw [← hbs2]
              exact hthr
            · intro j hj e he
              have hju : j ∈ u :=
                List.Sublist.subset
                  ((matchLoop_pool_sublist sim thr dets rest (u.erase i)).trans
                    (List.erase_sublist i u)) hj
              have hdom := findBest_dominates sim tr u dets j hju e he
              rw [hf] at hdom
              obtain ⟨hi, e2, he2, hbs⟩ := findBest_achieves sim tr u dets i (by rw [hf])
              have hed : e2 = d := by
                rw [hd] at he2
                exact (Option.some.inj he2).symm
              have hbs2 : bs = matchScore sim tr d := by
                have : (findBest sim tr dets u).2 = matchScore sim tr e2 := hbs
                rw [hf] at this
                rw [show ((some i : Option Nat), bs).2 = bs from rfl] at this
                rw [this, hed]
              rw [← hbs2]
              exact hdom
          · obtain ⟨tr2, htr2, d2, hd2, hsc, hdom⟩ := ih (u.erase i) a h
            exact ⟨tr2, List.mem_cons_of_mem _ htr2, d2, hd2, hsc, hdom⟩
        | none =>
          rw [matchLoop_cons_noget sim thr dets tid tr rest u i bs hf hthr hd] at ha ⊢
          obtain ⟨tr2, htr2, d2, hd2, hsc, hdom⟩ := ih u a ha
          exact ⟨tr2, List.mem_cons_of_mem _ htr2, d2, hd2, hsc, hdom⟩
      · rw [matchLoop_cons_low sim thr dets tid tr rest u i bs hf hthr] at ha ⊢
        obtain ⟨tr2, htr2, d2, hd2, hsc, hdom⟩ := ih u a ha
        exact ⟨tr2, List.mem_cons_of_mem _ htr2, d2, hd2, hsc, hdom⟩

theorem matchLoop_pool_iff (ts : List (Nat × Track α)) :
    ∀ u, u.Nodup → ∀ j, j ∈ (matchLoop sim thr dets ts u).2.2.2 ↔
      j ∈ u ∧ j ∉ (matchLoop sim thr dets ts u).2.2.1.map Prod.snd := by
  induction ts with
  | nil => intro u hu j; simp [matchLoop]
  | cons p rest ih =>
    intro u hu j
    obtain ⟨tid, tr⟩ := p
    rcases hf : findBest sim tr dets u with ⟨bi, bs⟩
    cases bi with
    | none =>
      rw [matchLoop_cons_none sim thr dets tid tr rest u bs hf]
      exact ih u hu j
    | some i =>
      by_cases hthr : thr < bs
      · cases hd : dets.get? i with
        | some d =>
          rw [matchLoop_cons_matched sim thr dets tid tr rest u i bs d hf hthr hd]
          rw [ih (u.erase i) (hu.erase i) j]
          rw [hu.mem_erase_iff]
          simp only [List.map_cons, List.mem_cons]
          constructor
          · rintro ⟨⟨hne, hju⟩, hnm⟩
            exact ⟨hju, fun h => h.elim (fun h => hne h) hnm⟩
          · rintro ⟨hju, hnm⟩
            refine ⟨⟨fun h => hnm (Or.inl h), hju⟩, fun h => hnm (Or.inr h)⟩
        | none =>
          rw [matchLoop_cons_noget sim thr dets tid tr rest u i bs hf hthr hd]
          exact ih u hu j
      · rw [matchLoop_cons_low sim thr dets tid tr rest u i bs hf hthr]
        exact ih u hu j

theorem matchLoop_asg_nodup (ts : List (Nat × Track α)) :
    ∀ u, u.Nodup → ((matchLoop sim thr dets ts u).2.2.1.map Prod.snd).Nodup := by
  induction ts with
  | nil => intro u hu; simp [matchLoop]
  | cons p rest ih =>
    intro u hu
    obtain ⟨tid, tr⟩ := p
    rcases hf : findBest sim tr dets u with ⟨bi, bs⟩
    cases bi with
    | none =>
      rw [matchLoop_cons_none sim thr dets tid tr rest u bs hf]
      exact ih u hu
    | some i =>
      by_cases hthr : thr < bs
      · cases hd : dets.get? i with
        | some d =>
          rw [matchLoop_cons_matched sim thr dets tid tr rest u i bs d hf hthr hd]
          simp only [List.map_cons]
          refine List.nodup_cons.mpr ⟨?_, ih (u.erase i) (hu.erase i)⟩
          intro hmem
          obtain ⟨a, ha, ha2⟩ := List.mem_map.mp hmem
          have := matchLoop_asg_pool sim thr dets rest (u.erase i) a ha
          rw [ha2] at this
          rw [hu.mem_erase_iff] at this
          exact this.1 rfl
        | none =>
          rw [matchLoop_cons_noget sim thr dets tid tr rest u i bs hf hthr hd]
          exact ih u hu
      · rw [matchLoop_cons_low sim thr dets tid tr rest u i bs hf hthr]
        exact ih u hu

theorem matchLoop_unmatched_low (hthr0 : 0 ≤ thr) (ts : List (Nat × Track α)) :
    ∀ u, ∀ p ∈ ts, p.1 ∉ (matchLoop sim thr dets ts u).2.1 →
      ∀ j ∈ (matchLoop sim thr dets ts u).2.2.2, ∀ e, dets.get? j = some e →
        matchScore sim p.2 e ≤ thr := by
  induction ts with
  | nil => intro u p hp; simp at hp
  | cons hd0 rest ih =>
    intro u p hp hnm j hj e he
    obtain ⟨tid, tr⟩ := hd0
    rcases hf : findBest sim tr dets u with ⟨bi, bs⟩
    cases bi with
    | none =>
      rw [matchLoop_cons_none sim thr dets tid tr rest u bs hf] at hnm hj
      rcases List.mem_cons.mp hp with h | h
      · have hju : j ∈ u :=
          List.Sublist.subset (matchLoop_pool_sublist sim thr dets rest u) hj
        have hdom := findBest_dominates sim tr u dets j hju e he
        have hz := findBest_none sim tr u dets (by rw [hf])
        rw [hz] at hdom
        rw [h]
        exact le_trans hdom hthr0
      · exact ih u p h hnm j hj e he
    | some i =>
      by_cases hthr : thr < bs
      · cases hd : dets.get? i with
        | some d =>
          rw [matchLoop_cons_matched sim thr dets tid tr rest u i bs d hf hthr hd] at hnm hj
          rcases List.mem_cons.mp hp with h | h
          · exfalso
            apply hnm
            rw [h]
            exact List.mem_cons_self _ _
          · refine ih (u.erase i) p h ?_ j hj e he
            intro hin
            exact hnm (List.mem_cons_of_mem _ hin)
        | none =>
          exfalso
          obtain ⟨hi, e2, he2, hbs⟩ := findBest_achieves sim tr u dets i (by rw [hf])
          rw [hd] at he2
          exact Option.noConfusion he2
      · rw [matchLoop_cons_low sim thr dets tid tr rest u i bs hf hthr] at hnm hj
        rcases List.mem_cons.mp hp with h | h
        · have hju : j ∈ u :=
            List.Sublist.subset (matchLoop_pool_sublist sim thr dets rest u) hj
          have hdom := findBest_dominates sim tr u dets j hju e he
          rw [hf] at hdom
          rw [h]
          exact le_trans hdom (not_lt.mp hthr)
        · exact ih u p h hnm j hj e he

theorem matchLoop_is_greedy (hthr0 : 0 ≤ thr) (ts : List (Nat × Track α)) :
    ∀ u, GreedyRun sim thr dets ts u (matchLoop sim thr dets ts u) := by
  induction ts with
  | nil =>
    intro u
    exact GreedyRun.nil u
  | cons hd0 rest ih =>
    intro u
    obtain ⟨tid, tr⟩ := hd0
    rcases hf : findBest sim tr dets u with ⟨bi, bs⟩
    cases bi with
    | none =>
      rw [matchLoop_cons_none sim thr dets tid tr rest u bs hf]
      refine GreedyRun.unmatched tid tr rest u _ ?_ (ih u)
      intro j hj e he
      have hdom := findBest_dominates sim tr u dets j hj e he
      have hz := findBest_none sim tr u dets (by rw [hf])
      rw [hz] at hdom
      exact le_trans hdom hthr0
    | some i =>
      by_cases hthr : thr < bs
      · cases hd : dets.get? i with
        | some d =>
          rw [matchLoop_cons_matched sim thr dets tid tr rest u i bs d hf hthr hd]
          obtain ⟨hi, e, he, hbs⟩ := findBest_achieves sim tr u dets i (by rw [hf])
          have hed : e = d := by
            rw [hd] at he
            exact (Option.some.inj he).symm
          have hbs2 : bs = matchScore sim tr d := by
            have h2 : (findBest sim tr dets u).2 = matchScore sim tr e := hbs
            rw [hf] at h2
            rw [show ((some i : Option Nat), bs).2 = bs from rfl] at h2
            rw [h2, hed]
          refine GreedyRun.matched tid tr rest u i d _ hi hd ?_ ?_ (ih (u.erase i))
          · rw [← hbs2]
            exact hthr
          · intro j hj e2 he2
            have hdom := findBest_dominates sim tr u dets j hj e2 he2
            rw [hf] at hdom
            rw [← hbs2]
            exact hdom
        | none =>
          exfalso
          obtain ⟨hi, e, he, hbs⟩ := findBest_achieves sim tr u dets i (by rw [hf])
          rw [hd] at he
          exact Option.noConfusion he
      · rw [matchLoop_cons_low sim thr dets tid tr rest u i bs hf hthr]
        refine GreedyRun.unmatched tid tr rest u _ ?_ (ih u)
        intro j hj e he
        have hdom := findBest_dominates sim tr u dets j hj e he
        rw [hf] at hdom
        exact le_trans hdom (not_lt.mp hthr)

end MatchLoopLemmas

/-! ### Lemmas on aging, eviction and track creation -/

section AgeCreateLemmas

variable {α : Type} (m : List Nat) (a : Nat)

theorem agePass_mem_bwd (l : List (Nat × Track α)) :
    ∀ q ∈ agePass m a l, ∃ p ∈ l, q.1 = p.1 ∧
      ((p.1 ∈ m ∧ q = p) ∨
        (p.1 ∉ m ∧ q.2.age ≤ a ∧ q = (p.1, { p.2 with age := p.2.age + 1 }))) := by
  induction l with
  | nil => intro q hq; simp [agePass] at hq
  | cons hd0 rest ih =>
    intro q hq
    obtain ⟨tid, tr⟩ := hd0
    simp only [agePass] at hq
    split_ifs at hq with hm hage
    · rcases List.mem_cons.mp hq with h | h
      · exact ⟨(tid, tr), List.mem_cons_self _ _, by rw [h], Or.inl ⟨hm, h⟩⟩
      · obtain ⟨p, hp, hkey, hval⟩ := ih q h
        exact ⟨p, List.mem_cons_of_mem _ hp, hkey, hval⟩
    · obtain ⟨p, hp, hkey, hval⟩ := ih q hq
      exact ⟨p, List.mem_cons_of_mem _ hp, hkey, hval⟩
    · rcases List.mem_cons.mp hq with h | h
      · refine ⟨(tid, tr), List.mem_cons_self _ _, by rw [h], Or.inr ⟨hm, ?_, h⟩⟩
        rw [h]
        exact not_lt.mp hage
      · obtain ⟨p, hp, hkey, hval⟩ := ih q h
        exact ⟨p, List.mem_cons_of_mem _ hp, hkey, hval⟩

theorem agePass_mem_matched (l : List (Nat × Track α)) :
    ∀ p ∈ l, p.1 ∈ m → p ∈ agePass m a l := by
  induction l with
  | nil => intro p hp; simp at hp
  | cons hd0 rest ih =>
    intro p hp hpm
    obtain ⟨tid, tr⟩ := hd0
    simp only [agePass]
    rcases List.mem_cons.mp hp with h | h
    · subst h
      rw [if_pos hpm]
      exact List.mem_cons_self _ _
    · split_ifs with hm hage
      · exact List.mem_cons_of_mem _ (ih p h hpm)
      · exact ih p h hpm
      · exact List.mem_cons_of_mem _ (ih p h hpm)

theorem agePass_mem_aged (l : List (Nat × Track α)) :
    ∀ p ∈ l, p.1 ∉ m → p.2.age + 1 ≤ a →
      (p.1, { p.2 with age := p.2.age + 1 }) ∈ agePass m a l := by
  induction l with
  | nil => intro p hp; simp at hp
  | cons hd0 rest ih =>
    intro p hp hpm hpa
    obtain ⟨tid, tr⟩ := hd0
    simp only [agePass]
    rcases List.mem_cons.mp hp with h | h
    · subst h
      rw [if_neg hpm, if_neg (by simpa using hpa)]
      exact List.mem_cons_self _ _
    · split_ifs with hm hage
      · exact List.mem_cons_of_mem _ (ih p h hpm hpa)
      · exact ih p h hpm hpa
      · exact List.mem_cons_of_mem _ (ih p h hpm hpa)

theorem agePass_keys_sublist (l : List (Nat × Track α)) :
    List.Sublist ((agePass m a l).map Prod.fst) (l.map Prod.fst) := by
  induction l with
  | nil => simp [agePass]
  | cons hd0 rest ih =>
    obtain ⟨tid, tr⟩ := hd0
    simp only [agePass]
    split_ifs with hm hage
    · simpa using List.Sublist.cons₂ tid ih
    · simpa using List.Sublist.cons tid ih
    · simpa using List.Sublist.cons₂ tid ih

variable (dets : List (Det α))

theorem createNew_le_next :
    ∀ (u : List Nat) (nid : Nat), nid ≤ (createNew dets u nid).2 := by
  intro u
  induction u with
  | nil => intro nid; simp [createNew]
  | cons i rest ih =>
    intro nid
    cases hd : dets.get? i with
    | some d =>
      simp only [createNew, hd]
      exact le_trans (Nat.le_succ nid) (ih (nid + 1))
    | none =>
      simp only [createNew, hd]
      exact ih nid

theorem createNew_mem :
    ∀ (u : List Nat) (nid : Nat), ∀ q ∈ (createNew dets u nid).1,
      nid ≤ q.1 ∧ q.1 < (createNew dets u nid).2 ∧ q.2.age = 0 ∧ q.2.hits = 1 := by
  intro u
  induction u with
  | nil => intro nid q hq; simp [createNew] at hq
  | cons i rest ih =>
    intro nid q hq
    cases hd : dets.get? i with
    | some d =>
      simp only [createNew, hd] at hq ⊢
      rcases List.mem_cons.mp hq with h | h
      · refine ⟨by rw [h], ?_, by rw [h]; rfl, by rw [h]; rfl⟩
        rw [h]
        exact lt_of_lt_of_le (Nat.lt_succ_self nid) (createNew_le_next dets rest (nid + 1))
      · obtain ⟨h1, h2, h3, h4⟩ := ih (nid + 1) q h
        exact ⟨le_trans (Nat.le_succ nid) h1, h2, h3, h4⟩
    | none =>
      simp only [createNew, hd] at hq ⊢
      exact ih nid q hq

theorem createNew_keys_nodup :
    ∀ (u : List Nat) (nid : Nat), ((createNew dets u nid).1.map Prod.fst).Nodup := by
  intro u
  induction u with
  | nil => intro nid; simp [createNew]
  | cons i rest ih =>
    intro nid
    cases hd : dets.get? i with
    | some d =>
      simp only [createNew, hd, List.map_cons]
      refine List.nodup_cons.mpr ⟨?_, ih (nid + 1)⟩
      intro hmem
      obtain ⟨q, hq, hq2⟩ := List.mem_map.mp hmem
      have := (createNew_mem dets rest (nid + 1) q hq).1
      omega
    | none =>
      simp only [createNew, hd]
      exact ih nid

end AgeCreateLemmas

/-! ### Lemmas on the update pipeline -/

section UpdateLemmas

variable {α : Type} (sim : α → α → ℚ)

theorem update_empty (t : FairMOTTracker α) :
    FairMOTTracker.update sim t [] =
      ({ t with tracks := agePass [] t.max_age t.tracks }, []) := rfl

theorem update_ne (t : FairMOTTracker α) (dets : List (Det α)) (h : dets ≠ []) :
    FairMOTTracker.update sim t dets =
      ({ t with
          tracks :=
            agePass (matchLoop sim t.feature_threshold dets t.tracks (List.range dets.length)).2.1
              t.max_age
              ((matchLoop sim t.feature_threshold dets t.tracks (List.range dets.length)).1 ++
                (createNew dets
                  (matchLoop sim t.feature_threshold dets t.tracks (List.range dets.length)).2.2.2
                  t.next_id).1)
          next_id :=
            (createNew dets
              (matchLoop sim t.feature_threshold dets t.tracks (List.range dets.length)).2.2.2
              t.next_id).2 },
        (agePass (matchLoop sim t.feature_threshold dets t.tracks (List.range dets.length)).2.1
            t.max_age
            ((matchLoop sim t.feature_threshold dets t.tracks (List.range dets.length)).1 ++
              (createNew dets
                (matchLoop sim t.feature_threshold dets t.tracks (List.range dets.length)).2.2.2
                t.next_id).1)).filter fun p => t.min_hits ≤ p.2.hits) := by
  unfold FairMOTTracker.update
  rw [if_neg (by simpa using h)]

theorem update_conf_ne (t : FairMOTTracker α) (dets : List (Det α)) (h : dets ≠ []) :
    (FairMOTTracker.update sim t dets).2 =
      (FairMOTTracker.update sim t dets).1.tracks.filter
        fun p => t.min_hits ≤ p.2.hits := by
  rw [update_ne sim t dets h]

theorem update_conf_sub (t : FairMOTTracker α) (dets : List (Det α)) :
    ∀ p ∈ (FairMOTTracker.update sim t dets).2,
      p ∈ (FairMOTTracker.update sim t dets).1.tracks := by
  intro p hp
  by_cases h : dets = []
  · subst h
    rw [update_empty] at hp
    simp at hp
  · rw [update_conf_ne sim t dets h] at hp
    exact List.mem_of_mem_filter hp

end UpdateLemmas

/-! ### Claims C7, C8, C9 — the tracker -/

/-- C9.  The greedy associator: the matching loop is a `GreedyRun` — for
each track in turn, with the unmatched pool of that very turn, a detection
is accepted exactly under the policy of the code: it comes from the
current pool, its score `0.4 * IoU + 0.6 * similarity` strictly exceeds
the threshold and is maximal over the whole current pool, and it is
removed from the pool before the next track is processed; a track whose
best current-pool score does not exceed the threshold stays unmatched with
the pool unchanged.  Moreover the claimed detection indices are pairwise
distinct (each detection assigned to at most one track), the final pool is
exactly the unclaimed part of the initial pool, and `matched_tracks` is
the list of assigned ids.  Stated for every similarity function, every
nonnegative threshold (the code uses `feature_threshold = 0.7`) and every
duplicate-free pool (the code passes `range(len(detections))`). -/
theorem matchLoop_greedy {α : Type} (sim : α → α → ℚ) (thr : ℚ)
    (dets : List (Det α)) (ts : List (Nat × Track α)) (u : List Nat)
    (hthr : 0 ≤ thr) (hu : u.Nodup) : GreedyMatchSpec sim thr dets ts u :=
  ⟨matchLoop_is_greedy sim thr dets hthr ts u,
    matchLoop_asg_nodup sim thr dets ts u hu,
    matchLoop_pool_iff sim thr dets ts u hu,
    matchLoop_ms_eq sim thr dets ts u⟩

/-- C9, witness: the greedy specification applied to one track and one
detection with the threshold 0.7 of the code. -/
theorem matchLoop_greedy_witness :
    GreedyMatchSpec simOne ((0.7 : ℚ)) [detW] [(1, trackSeed)] [0] :=
  matchLoop_greedy simOne ((0.7 : ℚ)) [detW] [(1, trackSeed)] [0]
    (by norm_num) (by simp)

/-- C7, counterexample.  The claim says that for every sequence of updates
the returned set is exactly the live tracks with `hits >= 3`.  After three
updates with the same detection the single track has `hits = 3` and is
returned; a fourth update with no detections returns the empty list even
though that confirmed track is still live in the store (it merely aged to
1).  So an update with no detections withholds live confirmed tracks. -/
theorem update_empty_withholds_confirmed_cex :
    (FairMOTTracker.update simOne trkW3 []).2 = [] ∧
    ∃ p ∈ (FairMOTTracker.update simOne trkW3 []).1.tracks, 3 ≤ p.2.hits := by
  constructor
  · rw [update_empty]
  · rw [update_empty]
    refine ⟨(1, { bbox := boxW, features := (), age := 1, hits := 3, center := (5, 5), trail := [(5, 5), (5, 5), (5, 5)] }), ?_, by norm_num⟩
    show _ ∈ agePass [] trkW3.max_age trkW3.tracks
    norm_num [trkW3, trkW2, trkW1, initTracker, FairMOTTracker.update, matchLoop,
      findBest, findBestAux, matchScore, calculate_iou, boxW, detW, simOne,
      createNew, agePass, updateMatchedTrack, appendTrail, newTrackOfDet,
      List.range, List.range.loop]

/-- C7, amended.  On every update with at least one detection the returned
set is exactly the live tracks with `hits >= min_hits` (3 in the code), a
newly created track has `hits = 1` and is never returned, and a surviving
`hits` count of a surviving track either stays or grows by exactly one per frame, so a track
is confirmed exactly on the frame where `hits` first reaches 3.  An update
with no detections, however, returns the empty list even when confirmed
tracks remain live. -/
theorem update_confirmed {α : Type} (sim : α → α → ℚ) (t : FairMOTTracker α)
    (dets : List (Det α)) (hne : dets ≠ []) (hmin : t.min_hits = 3) :
    ConfirmedReturnSpec sim t dets := by
  constructor
  · intro p
    rw [update_conf_ne sim t dets hne, List.mem_filter]
    constructor
    · rintro ⟨h1, h2⟩
      exact ⟨h1, by simpa [hmin] using h2⟩
    · rintro ⟨h1, h2⟩
      exact ⟨h1, by simpa [hmin] using h2⟩
  · intro p hp
    have htr : (FairMOTTracker.update sim t dets).1.tracks =
        agePass (matchLoop sim t.feature_threshold dets t.tracks (List.range dets.length)).2.1
          t.max_age
          ((matchLoop sim t.feature_threshold dets t.tracks (List.range dets.length)).1 ++
            (createNew dets
              (matchLoop sim t.feature_threshold dets t.tracks (List.range dets.length)).2.2.2
              t.next_id).1) := by
      rw [update_ne sim t dets hne]
    rw [htr] at hp
    obtain ⟨q, hq, hkey, hval⟩ := agePass_mem_bwd _ _ _ p hp
    have hhits : p.2.hits = q.2.hits := by
      rcases hval with ⟨_, rfl⟩ | ⟨_, _, rfl⟩
      · rfl
      · rfl
    rcases List.mem_append.mp hq with hq2 | hq2
    · obtain ⟨p0, hp0, hkey0, hval0⟩ := matchLoop_mem_bwd sim t.feature_threshold dets
        t.tracks (List.range dets.length) q hq2
      left
      refine ⟨p0, hp0, (hkey.trans hkey0).symm, ?_⟩
      rcases hval0 with h | ⟨_, h⟩
      · left; rw [hhits, h]
      · right; rw [hhits, h]
    · right
      rw [hhits]
      exact (createNew_mem dets _ t.next_id q hq2).2.2.2

/-- C7, amended, witness: the confirmed-return specification applied to the
fresh tracker and one detection. -/
theorem update_confirmed_witness :
    ConfirmedReturnSpec simOne (initTracker Unit) [detW] :=
  update_confirmed simOne (initTracker Unit) [detW] (by simp) rfl

/-- C8.  Eviction and id freshness: ids are assigned from a strictly
increasing counter, every stored id stays below the counter, a track is
evicted exactly on the update where its age (consecutive unmatched frames)
first exceeds `max_age` (30 in the code), and stored ids remain pairwise
distinct, so an evicted id can never reappear.  The hypotheses are the
store invariants, which hold for the initial empty store and are
re-established by the conclusion. -/
theorem update_eviction_ids {α : Type} (sim : α → α → ℚ)
    (t : FairMOTTracker α) (dets : List (Det α))
    (hkeys : (t.tracks.map Prod.fst).Nodup)
    (hinv : ∀ p ∈ t.tracks, p.1 < t.next_id)
    (hage : ∀ p ∈ t.tracks, p.2.age ≤ t.max_age) :
    EvictionIdSpec sim t dets := by
  by_cases hd : dets = []
  · subst hd
    rw [EvictionIdSpec]
    rw [update_empty]
    refine ⟨le_refl _, ?_, ?_, ?_, ?_, ?_, ?_⟩
    · intro p hp
      obtain ⟨q, hq, hkey, hval⟩ := agePass_mem_bwd _ _ _ p hp
      rw [hkey]
      exact hinv q hq
    · intro p hp
      obtain ⟨q, hq, hkey, _⟩ := agePass_mem_bwd _ _ _ p hp
      exact Or.inl ⟨q, hq, hkey.symm⟩
    · intro p hp
      obtain ⟨q, hq, hkey, hval⟩ := agePass_mem_bwd _ _ _ p hp
      rcases hval with ⟨hm, _⟩ | ⟨_, hle, _⟩
      · simp at hm
      · exact hle
    · intro p hp hev
      by_contra hne2
      have hlt : p.2.age + 1 ≤ t.max_age := by
        have := hage p hp
        omega
      have := agePass_mem_aged ([] : List Nat) t.max_age t.tracks p hp (by simp) hlt
      exact hev _ this
    · intro p hp hle
      exact ⟨_, agePass_mem_aged ([] : List Nat) t.max_age t.tracks p hp (by simp) hle⟩
    · exact (agePass_keys_sublist _ _ _).nodup hkeys
  · have htr : (FairMOTTracker.update sim t dets).1.tracks =
        agePass (matchLoop sim t.feature_threshold dets t.tracks (List.range dets.length)).2.1
          t.max_age
          ((matchLoop sim t.feature_threshold dets t.tracks (List.range dets.length)).1 ++
            (createNew dets
              (matchLoop sim t.feature_threshold dets t.tracks (List.range dets.length)).2.2.2
              t.next_id).1) := by
      rw [update_ne sim t dets hd]
    have hnx : (FairMOTTracker.update sim t dets).1.next_id =
        (createNew dets
          (matchLoop sim t.feature_threshold dets t.tracks (List.range dets.length)).2.2.2
          t.next_id).2 := by
      rw [update_ne sim t dets hd]
    set ml := matchLoop sim t.feature_threshold dets t.tracks (List.range dets.length) with hml
    set cn := createNew dets ml.2.2.2 t.next_id with hcn
    have hkeysml : ml.1.map Prod.fst = t.tracks.map Prod.fst :=
      matchLoop_keys sim t.feature_threshold dets t.tracks (List.range dets.length)
    have hnewmem := createNew_mem dets ml.2.2.2 t.next_id
    have hnextle : t.next_id ≤ cn.2 := createNew_le_next dets ml.2.2.2 t.next_id
    have hallkey : ∀ q ∈ ml.1 ++ cn.1,
        (∃ p0 ∈ t.tracks, q.1 = p0.1) ∨ t.next_id ≤ q.1 := by
      intro q hq
      rcases List.mem_append.mp hq with h | h
      · obtain ⟨p0, hp0, hkey0, _⟩ := matchLoop_mem_bwd sim t.feature_threshold dets
          t.tracks (List.range dets.length) q h
        exact Or.inl ⟨p0, hp0, hkey0⟩
      · exact Or.inr (hnewmem q h).1
    have hallkeylt : ∀ q ∈ ml.1 ++ cn.1, q.1 < cn.2 := by
      intro q hq
      rcases List.mem_append.mp hq with h | h
      · obtain ⟨p0, hp0, hkey0, _⟩ := matchLoop_mem_bwd sim t.feature_threshold dets
          t.tracks (List.range dets.length) q h
        rw [hkey0]
        exact lt_of_lt_of_le (hinv p0 hp0) hnextle
      · exact (hnewmem q h).2.1
    have hallage : ∀ q ∈ ml.1 ++ cn.1, q.2.age ≤ t.max_age := by
      intro q hq
      rcases List.mem_append.mp hq with h | h
      · obtain ⟨p0, hp0, _, hval0⟩ := matchLoop_mem_bwd sim t.feature_threshold dets
          t.tracks (List.range dets.length) q h
        rcases hval0 with h2 | ⟨h2, _⟩
        · rw [h2]; exact hage p0 hp0
        · rw [h2]; exact Nat.zero_le _
      · rw [(hnewmem q h).2.2.1]
        exact Nat.zero_le _
    have hsurvive : ∀ p ∈ t.tracks, p.1 ∈ ml.2.1 →
        ∃ tr, (p.1, tr) ∈ (FairMOTTracker.update sim t dets).1.tracks := by
      intro p hp hpm
      have : p.1 ∈ ml.1.map Prod.fst := by
        rw [hkeysml]
        exact List.mem_map.mpr ⟨p, hp, rfl⟩
      obtain ⟨q, hq, hqkey⟩ := List.mem_map.mp this
      have hq2 : q ∈ ml.1 ++ cn.1 := List.mem_append.mpr (Or.inl hq)
      have : q ∈ agePass ml.2.1 t.max_age (ml.1 ++ cn.1) :=
        agePass_mem_matched _ _ _ q hq2 (by rw [hqkey]; exact hpm)
      refine ⟨q.2, ?_⟩
      rw [htr]
      rw [show (p.1, q.2) = q from by rw [← hqkey]]
      exact this
    rw [EvictionIdSpec, htr, hnx]
    refine ⟨hnextle, ?_, ?_, ?_, ?_, ?_, ?_⟩
    · intro p hp
      obtain ⟨q, hq, hkey, _⟩ := agePass_mem_bwd _ _ _ p hp
      rw [hkey]
      exact hallkeylt q hq
    · intro p hp
      obtain ⟨q, hq, hkey, _⟩ := agePass_mem_bwd _ _ _ p hp
      rcases hallkey q hq with ⟨p0, hp0, hkey0⟩ | h
      · exact Or.inl ⟨p0, hp0, by rw [hkey, hkey0]⟩
      · exact Or.inr (by rw [hkey]; exact h)
    · intro p hp
      obtain ⟨q, hq, hkey, hval⟩ := agePass_mem_bwd _ _ _ p hp
      rcases hval with ⟨_, h⟩ | ⟨_, hle, _⟩
      · rw [h]
        exact hallage q hq
      · exact hle
    · intro p hp hev
      by_cases hpm : p.1 ∈ ml.2.1
      · exfalso
        obtain ⟨tr, htr2⟩ := hsurvive p hp hpm
        rw [htr] at htr2
        exact hev tr htr2
      · have hpml : p ∈ ml.1 :=
          matchLoop_unmatched_preserved sim t.feature_threshold dets t.tracks
            (List.range dets.length) p hp hpm
        by_contra hne2
        have hlt : p.2.age + 1 ≤ t.max_age := by
          have := hage p hp
          omega
        have := agePass_mem_aged ml.2.1 t.max_age (ml.1 ++ cn.1) p
          (List.mem_append.mpr (Or.inl hpml)) hpm hlt
        exact hev _ this
    · intro p hp hle
      by_cases hpm : p.1 ∈ ml.2.1
      · obtain ⟨tr, h⟩ := hsurvive p hp hpm
        rw [htr] at h
        exact ⟨tr, h⟩
      · have hpml : p ∈ ml.1 :=
          matchLoop_unmatched_preserved sim t.feature_threshold dets t.tracks
            (List.range dets.length) p hp hpm
        refine ⟨{ p.2 with age := p.2.age + 1 }, ?_⟩
        exact agePass_mem_aged ml.2.1 t.max_age (ml.1 ++ cn.1) p
          (List.mem_append.mpr (Or.inl hpml)) hpm hle
    · refine ((agePass_keys_sublist _ _ _).nodup ?_)
      rw [List.map_append, List.nodup_append]
      refine ⟨by rw [hkeysml]; exact hkeys, createNew_keys_nodup dets _ _, ?_⟩
      intro x hx hx2
      rw [hkeysml] at hx
      obtain ⟨p0, hp0, hkey0⟩ := List.mem_map.mp hx
      obtain ⟨q, hq, hkeyq⟩ := List.mem_map.mp hx2
      have h1 : x < t.next_id := by
        rw [← hkey0]
        exact hinv p0 hp0
      have h2 : t.next_id ≤ x := by
        rw [← hkeyq]
        exact (hnewmem q hq).1
      omega

/-- C8, witness: the eviction-and-id specification applied to the fresh
tracker and one detection, whose store invariants hold vacuously. -/
theorem update_eviction_ids_witness :
    EvictionIdSpec simOne (initTracker Unit) [detW] :=
  update_eviction_ids simOne (initTracker Unit) [detW]
    (by simp [initTracker]) (by simp [initTracker]) (by simp [initTracker])

/-! ### Reduction lemmas for the per-frame logic -/

section ProcessLemmas

variable {α : Type} (sim : α → α → ℚ) (fm : FairMOTTracker α) (s : ProcState)
variable (now t0 : ℚ) (dims : Nat × Nat)

theorem attachHand_id (dets : List (Det α)) (p : Nat × Track α) :
    (attachHand dets p).id = p.1 := by
  unfold attachHand
  cases h : dets.find? fun d => distLt50 p.2.center d.center
  · rfl
  · rfl

theorem process_frame_none_keep (ht : s.last_detection_time = some t0)
    (hnot : ¬(s.person_locked = true ∧ t0 ≠ 0 ∧ s.person_gone_threshold < now - t0)) :
    process_frame sim fm s now dims none =
      ((FairMOTTracker.update sim fm []).1,
        { s with frame_count := s.frame_count + 1, frame_dimensions := dims },
        [],
        if s.car_connected = true ∧ s.tracking_enabled = true then
          [CarCmd.handleTracking none false none]
        else []) := by
  simp [process_frame, ht, hnot]

theorem process_frame_none_release (hl : s.person_locked = true)
    (ht : s.last_detection_time = some t0) (ht0 : t0 ≠ 0)
    (hgt : s.person_gone_threshold < now - t0) :
    process_frame sim fm s now dims none =
      ((FairMOTTracker.update sim fm []).1,
        { s with
            frame_count := s.frame_count + 1
            frame_dimensions := dims
            person_locked := false
            tracked_person_id := none },
        [],
        (if s.car_connected = true then [CarCmd.emergencyStop] else []) ++
          if s.car_connected = true ∧ s.tracking_enabled = true then
            [CarCmd.handleTracking none false none]
          else []) := by
  simp [process_frame, ht, hl, ht0, hgt]

theorem process_frame_some_nil :
    process_frame sim fm s now dims (some []) =
      ((FairMOTTracker.update sim fm []).1,
        { s with frame_count := s.frame_count + 1, frame_dimensions := dims },
        [],
        if s.car_connected = true ∧ s.tracking_enabled = true then
          [CarCmd.handleTracking none false none]
        else []) := rfl

theorem process_frame_locked_found (dets : List (Det α)) (o : OutTrack α)
    (hne : ¬dets.isEmpty = true) (hl : s.person_locked = true)
    (hfind : ((FairMOTTracker.update sim fm dets).2.map (attachHand dets)).find?
      (fun o => s.tracked_person_id = some o.id) = some o) :
    process_frame sim fm s now dims (some dets) =
      ((FairMOTTracker.update sim fm dets).1,
        { s with
            frame_count := s.frame_count + 1
            frame_dimensions := dims
            last_detection_time := some now },
        [o],
        if s.car_connected = true ∧ s.tracking_enabled = true then
          [CarCmd.handleTracking (some o.tr.center) o.has_raised_hand o.hand_side]
        else []) := by
  simp [process_frame, if_neg hne, hl, hfind]

theorem process_frame_locked_lost_keep (dets : List (Det α))
    (hne : ¬dets.isEmpty = true) (hl : s.person_locked = true)
    (hfind : ((FairMOTTracker.update sim fm dets).2.map (attachHand dets)).find?
      (fun o => s.tracked_person_id = some o.id) = none)
    (ht : s.last_detection_time = some t0) (ht0 : t0 ≠ 0)
    (hnot : ¬ s.person_gone_threshold < now - t0) :
    process_frame sim fm s now dims (some dets) =
      ((FairMOTTracker.update sim fm dets).1,
        { s with frame_count := s.frame_count + 1, frame_dimensions := dims },
        [],
        []) := by
  simp [process_frame, if_neg hne, hl, hfind, ht, ht0, hnot]

theorem process_frame_locked_lost_release (dets : List (Det α))
    (hne : ¬dets.isEmpty = true) (hl : s.person_locked = true)
    (hfind : ((FairMOTTracker.update sim fm dets).2.map (attachHand dets)).find?
      (fun o => s.tracked_person_id = some o.id) = none)
    (ht : s.last_detection_time = some t0) (ht0 : t0 ≠ 0)
    (hgt : s.person_gone_threshold < now - t0) :
    process_frame sim fm s now dims (some dets) =
      ((FairMOTTracker.update sim fm dets).1,
        { s with
            frame_count := s.frame_count + 1
            frame_dimensions := dims
            person_locked := false
            tracked_person_id := none },
        [],
        (if s.car_connected = true then [CarCmd.emergencyStop] else []) ++
          if s.car_connected = true ∧ s.tracking_enabled = true then
            [CarCmd.handleTracking none false none]
          else []) := by
  simp [process_frame, if_neg hne, hl, hfind, ht, ht0, hgt]

theorem process_frame_locked_find_none (dets : List (Det α)) (pid : Nat)
    (hid : s.tracked_person_id = some pid)
    (habs : ∀ p ∈ (FairMOTTracker.update sim fm dets).2, p.1 ≠ pid) :
    ((FairMOTTracker.update sim fm dets).2.map (attachHand dets)).find?
      (fun o => s.tracked_person_id = some o.id) = none := by
  apply List.find?_eq_none.mpr
  intro o ho
  obtain ⟨p, hp, hpo⟩ := List.mem_map.mp ho
  have hido : o.id = p.1 := by rw [← hpo]; exact attachHand_id dets p
  simp only [hid, decide_eq_true_eq]
  intro hcontra
  apply habs p hp
  have : pid = o.id := Option.some.inj hcontra
  rw [← this] at hido
  exact hido.symm

end ProcessLemmas

/-! ### Claims C4 and C10 — lock timeout and locked-state filtering -/

/-- C4, counterexample.  The claim says the lock is released on the first
frame where the locked id has been absent for more than 10 seconds, with
one emergency stop.  On a frame whose detection results are nonempty but
contain no confident detection (`some []`, the early return of lines
407-414 of main_with_car.py), the timeout check is skipped: here the person
was last seen at t = 1 and the frame runs at t = 20 — absence 19 s,
well beyond the 10 s threshold — yet the system stays locked on person 1
and no emergency stop is issued. -/
theorem lock_timeout_skipped_cex :
    lockedState.person_gone_threshold < (20 : ℚ) - 1 ∧
    (process_frame simOne (initTracker Unit) lockedState 20 (640, 480)
      (some [])).2.1.person_locked = true ∧
    (process_frame simOne (initTracker Unit) lockedState 20 (640, 480)
      (some [])).2.1.tracked_person_id = some 1 ∧
    CarCmd.emergencyStop ∉ (process_frame simOne (initTracker Unit) lockedState 20
      (640, 480) (some [])).2.2.2 := by
  refine ⟨by norm_num [lockedState], ?_, ?_, ?_⟩
  · rw [process_frame_some_nil]
    rfl
  · rw [process_frame_some_nil]
    rfl
  · rw [process_frame_some_nil]
    simp [lockedState]

/-- C4, amended.  While locked on `pid` with last sighting `t0`, if `pid`
is absent from the confirmed tracks of this frame then: within 10 seconds the
lock is retained and no emergency stop is issued; past 10 seconds the lock
is released, the id cleared, and exactly one emergency stop issued — unless
the frame carried detection results with no confident detection
(`some []`), in which case the timeout check is skipped entirely and the
lock is retained.  (`t0 ≠ 0` mirrors Python float truthiness;
`time.time()` is never 0.) -/
theorem process_frame_lock_timeout {α : Type} (sim : α → α → ℚ)
    (fm : FairMOTTracker α) (s : ProcState) (now t0 : ℚ) (pid : Nat)
    (dims : Nat × Nat) (input : Option (List (Det α)))
    (hl : s.person_locked = true) (hid : s.tracked_person_id = some pid)
    (ht : s.last_detection_time = some t0) (ht0 : t0 ≠ 0)
    (hthr : s.person_gone_threshold = 10) (hconn : s.car_connected = true) :
    LockTimeoutSpec sim fm s now t0 pid dims input := by
  intro habs
  refine ⟨?_, ?_, ?_⟩
  · intro hle
    have hnot : ¬ s.person_gone_threshold < now - t0 := by
      rw [hthr]
      exact not_lt.mpr hle
    cases input with
    | none =>
      rw [process_frame_none_keep sim fm s now t0 dims ht
        (fun h => hnot h.2.2)]
      refine ⟨hl, hid, ?_⟩
      split_ifs <;> simp
    | some dets =>
      by_cases hnil : dets = []
      · subst hnil
        rw [process_frame_some_nil]
        refine ⟨hl, hid, ?_⟩
        split_ifs <;> simp
      · have hfind := process_frame_locked_find_none sim fm s dets pid hid
          (habs dets rfl)
        rw [process_frame_locked_lost_keep sim fm s now t0 dims dets
          (by simpa using hnil) hl hfind ht ht0 hnot]
        refine ⟨hl, hid, by simp⟩
  · intro hgt hinput
    cases input with
    | none =>
      rw [process_frame_none_release sim fm s now t0 dims hl ht ht0
        (by rw [hthr]; exact hgt)]
      refine ⟨rfl, rfl, ?_⟩
      rw [if_pos hconn]
      split_ifs <;> rfl
    | some dets =>
      by_cases hnil : dets = []
      · exact absurd (by rw [hnil]) hinput
      · have hfind := process_frame_locked_find_none sim fm s dets pid hid
          (habs dets rfl)
        rw [process_frame_locked_lost_release sim fm s now t0 dims dets
          (by simpa using hnil) hl hfind ht ht0 (by rw [hthr]; exact hgt)]
        refine ⟨rfl, rfl, ?_⟩
        rw [if_pos hconn]
        split_ifs <;> rfl
  · intro hinput
    subst hinput
    rw [process_frame_some_nil]
    refine ⟨hl, hid, ?_⟩
    split_ifs <;> simp

/-- C4, amended, witness: the timeout specification applied at a locked
state, last sighting t = 1, on a no-result frame at t = 20. -/
theorem process_frame_lock_timeout_witness :
    LockTimeoutSpec simOne (initTracker Unit) lockedState 20 1 1 (640, 480)
      none :=
  process_frame_lock_timeout simOne (initTracker Unit) lockedState 20 1 1
    (640, 480) none rfl rfl rfl one_ne_zero rfl rfl

/-- C10.  While the system is locked on `pid`, the track list returned by
`process_frame` contains only tracks with id `pid` (hence at most one), and
every confirmed track the tracker produced this frame — including the
withheld ones — is still alive in the track store. -/
theorem process_frame_locked_filter {α : Type} (sim : α → α → ℚ)
    (fm : FairMOTTracker α) (s : ProcState) (now : ℚ) (dims : Nat × Nat)
    (input : Option (List (Det α))) (pid : Nat)
    (hl : s.person_locked = true) (hid : s.tracked_person_id = some pid) :
    LockedFilterSpec sim fm s now dims input pid := by
  cases input with
  | none =>
    have hout : (process_frame sim fm s now dims none).2.2.1 = [] := by
      simp only [process_frame]
    refine ⟨?_, ?_, ?_⟩
    · rw [hout]; intro o ho; simp at ho
    · rw [hout]; simp
    · intro dets hinp; exact absurd hinp (by simp)
  | some dets =>
    by_cases hnil : dets = []
    · subst hnil
      refine ⟨?_, ?_, ?_⟩
      · rw [process_frame_some_nil]
        intro o ho
        simp at ho
      · rw [process_frame_some_nil]
        simp
      · intro dets' hinp hne
        exact absurd (Option.some.inj hinp).symm hne
    · cases hfind : ((FairMOTTracker.update sim fm dets).2.map
        (attachHand dets)).find? (fun o => s.tracked_person_id = some o.id) with
      | some o =>
        have hred := process_frame_locked_found sim fm s now dims dets o
          (by simpa using hnil) hl hfind
        have hido : o.id = pid := by
          have := List.find?_some hfind
          rw [hid] at this
          rw [decide_eq_true_eq] at this
          exact (Option.some.inj this).symm
        refine ⟨?_, ?_, ?_⟩
        · rw [hred]
          intro o' ho'
          rcases List.mem_cons.mp ho' with h | h
          · rw [h]; exact hido
          · simp at h
        · rw [hred]
          simp
        · intro dets' hinp hne p hp
          have hdd : dets' = dets := (Option.some.inj hinp).symm
          subst hdd
          rw [hred]
          exact update_conf_sub sim fm dets' p hp
      | none =>
        have hred : (process_frame sim fm s now dims (some dets)).2.2.1 = [] ∧
            (process_frame sim fm s now dims (some dets)).1 =
              (FairMOTTracker.update sim fm dets).1 := by
          simp [process_frame, if_neg (show ¬dets.isEmpty = true by simpa using hnil), hl,
            hfind]
          split_ifs <;> exact ⟨rfl, rfl⟩
        refine ⟨?_, ?_, ?_⟩
        · rw [hred.1]
          intro o ho
          simp at ho
        · rw [hred.1]
          simp
        · intro dets' hinp hne p hp
          have hdd : dets' = dets := (Option.some.inj hinp).symm
          subst hdd
          rw [hred.2]
          exact update_conf_sub sim fm dets' p hp

/-- C10, witness: the locked-filter specification applied at the locked
state with the three-hit tracker and one detection. -/
theorem process_frame_locked_filter_witness :
    LockedFilterSpec simOne trkW3 lockedState 5 (640, 480) (some [detW]) 1 :=
  process_frame_locked_filter simOne trkW3 lockedState 5 (640, 480)
    (some [detW]) 1 rfl rfl

end SmartCar
